import Mathlib

/-!
Verification development for the partition-aware FPGA-mapping extension of a
priority-cut technology mapper.  The development shallowly embeds, from the C
sources, the hypergraph builders and their CSR export, the timing-criticality
estimator, the KaHyPar oracle adapter, the partition propagation (boundary-set
derivation), and the partition-constrained cut engine
`If_ObjPerformMappingAndPartitionAware`, and proves or refutes the frozen
specification claims about them.

Modelling conventions:
* C `int` becomes `Int` (or `Nat` where the source value is a count or an id
  that is always non-negative); C `float` becomes `Rat` (the claims never
  depend on rounding of float arithmetic except where noted in doc comments).
* ABC vectors become Lean lists; `Vec_IntEntry` beyond the stored size is out
  of range in C, and every in-source caller guards it, so `List.getD` is used
  with the guard translated verbatim.
* Out-of-scope collaborator routines of the generic mapper (cut merging,
  filtering, sorting, delay/area estimation, area referencing) are abstracted
  into an environment structure `IfExt`; the few facts the proofs need about
  them (e.g. that sorting a cut into a set only reorders or drops stored cuts)
  are recorded as fields of that structure and discharged by the concrete
  environment `extId` used in the witnesses.
-/

/-- ABC vector-library primitive `Vec_VecPush` (vecVec.h, library code that is
not under src/).  Modelled from the ABC library: the entry is appended to the
sub-list at index `lvl`, the outer list first growing with empty levels as
needed. -/
def Vec_VecPush {α : Type} : List (List α) → Nat → α → List (List α)
  | [], 0, x => [[x]]
  | [], n+1, x => [] :: Vec_VecPush [] n x
  | l :: rest, 0, x => (l ++ [x]) :: rest
  | l :: rest, n+1, x => l :: Vec_VecPush rest n x

/-- Modelled from the spec: ABC vector-library primitive
`Vec_VecPushUnique`/`Vec_VecPushUniqueInt` (vecVec.h, library code that is not
under src/), the routine the propagator uses to maintain set semantics for the
boundary sets ("duplicates are forbidden"): the entry is appended to the
sub-list at index `lvl` only when it is not already present there. -/
def Vec_VecPushUnique {α : Type} [DecidableEq α] : List (List α) → Nat → α → List (List α)
  | [], 0, x => [[x]]
  | [], n+1, x => [] :: Vec_VecPushUnique [] n x
  | l :: rest, 0, x => (if l.contains x then l else l ++ [x]) :: rest
  | l :: rest, n+1, x => l :: Vec_VecPushUnique rest n x

/-- ABC vector-library primitive `Vec_VecStart`: a vector of `n` empty levels. -/
def Vec_VecStart (α : Type) (n : Nat) : List (List α) := List.replicate n []

/-- Appending an element that is not yet present keeps a list duplicate-free. -/
theorem nodup_append_singleton {α : Type} {l : List α} {x : α}
    (hx : x ∉ l) (hl : l.Nodup) : (l ++ [x]).Nodup :=
  List.nodup_append_comm.mp (List.nodup_cons.mpr ⟨hx, hl⟩)

/-- `Vec_VecPushUnique` preserves the no-duplicates invariant of every level. -/
theorem Vec_VecPushUnique_nodup {α : Type} [DecidableEq α] :
    ∀ (levels : List (List α)) (lvl : Nat) (x : α),
      (∀ l ∈ levels, l.Nodup) → ∀ l ∈ Vec_VecPushUnique levels lvl x, l.Nodup
  | [], 0, x, _ => by
      intro l hl
      simp only [Vec_VecPushUnique, List.mem_singleton] at hl
      subst hl; exact List.nodup_singleton x
  | [], n+1, x, h => by
      intro l hl
      simp only [Vec_VecPushUnique, List.mem_cons] at hl
      rcases hl with rfl | hl
      · exact List.nodup_nil
      · exact Vec_VecPushUnique_nodup [] n x h l hl
  | l0 :: rest, 0, x, h => by
      intro l hl
      simp only [Vec_VecPushUnique, List.mem_cons] at hl
      rcases hl with rfl | hl
      · cases hc : l0.contains x with
        | true => simpa [hc] using h l0 (by simp)
        | false =>
            have hx : x ∉ l0 := by simpa using hc
            simpa [hc] using nodup_append_singleton hx (h l0 (by simp))
      · exact h l (List.mem_cons_of_mem _ hl)
  | l0 :: rest, n+1, x, h => by
      intro l hl
      simp only [Vec_VecPushUnique, List.mem_cons] at hl
      rcases hl with rfl | hl
      · exact h l (by simp)
      · exact Vec_VecPushUnique_nodup rest n x (fun m hm => h m (List.mem_cons_of_mem _ hm)) l hl

/-! ## The IF manager, cuts and the partition filter (ifPartition.c) -/

/-- Priority cut of the IF mapper: leaf ids, signature word, delay and area
estimates (the truth table is not material to any claim and is omitted). -/
structure IfCut where
  leaves : List Nat
  uSign : Nat
  delay : Rat
  area : Rat
deriving DecidableEq

instance : Inhabited IfCut := ⟨⟨[], 0, 0, 0⟩⟩

/-- IF mapper object (an AND node or one of its fanins): id, reference counts,
required time, the skip-trivial-cut flag, complement flags of the two fanin
edges, the currently selected best cut and the cut-set storage slot (`none`
models a NULL `pCutSet`). -/
structure IfObj where
  objId : Nat
  nRefs : Nat
  estRefs : Rat
  required : Rat
  fSkipCut : Bool
  fCompl0 : Bool
  fCompl1 : Bool
  cutBest : IfCut
  cutSet : Option (List IfCut)
deriving DecidableEq

/-- The slice of the IF manager consulted by the partition-aware code:
partition vector (`none` models a NULL `p->vPartition`), partition count,
per-partition boundary sets, epsilon, LUT size and the two parameter flags
read in the merge loop. -/
structure IfMan where
  vPartition : Option (List Int)
  nPartitions : Nat
  vPartInputs : Option (List (List Nat))
  vPartOutputs : Option (List (List Nat))
  fEpsilon : Rat
  nLutSize : Nat
  fSkipCutFilter : Bool
  fTruth : Bool
deriving DecidableEq

/-- `If_WordCountOnes` (ifPartition.c lines 41-48): population count by the
shift-and-mask ladder; on 32-bit inputs this coincides with the C version. -/
def If_WordCountOnes (uWord : Nat) : Nat :=
  let u1 := (uWord &&& 0x55555555) + ((uWord >>> 1) &&& 0x55555555)
  let u2 := (u1 &&& 0x33333333) + ((u1 >>> 2) &&& 0x33333333)
  let u3 := (u2 &&& 0x0F0F0F0F) + ((u2 >>> 4) &&& 0x0F0F0F0F)
  let u4 := (u3 &&& 0x00FF00FF) + ((u3 >>> 8) &&& 0x00FF00FF)
  (u4 &&& 0x0000FFFF) + (u4 >>> 16)

/-- `If_ObjPartition` (ifPartition.c lines 174-181): the node's partition id,
`-1` when no partition vector is attached or the id is out of range. -/
def If_ObjPartition (p : IfMan) (o : IfObj) : Int :=
  match p.vPartition with
  | none => -1
  | some v => if o.objId ≥ v.length then -1 else v.getD o.objId (-1)

/-- `If_ObjIsPartitionInput` (ifPartition.c lines 153-161): whether `nodeId`
is recorded in the `Inputs` boundary set of partition `partId`. -/
def If_ObjIsPartitionInput (p : IfMan) (nodeId : Nat) (partId : Int) : Bool :=
  match p.vPartInputs with
  | none => false
  | some vv =>
    if partId < 0 ∨ partId ≥ (p.nPartitions : Int) then false
    else (vv.getD partId.toNat []).contains nodeId

/-- `If_CutCheckPartition` (ifPartition.c lines 194-223): a merged cut is
accepted when every leaf is out of the vector's range (skipped), has partition
`-1`, lies in the target partition, or is a recorded partition input. -/
def If_CutCheckPartition (p : IfMan) (pCut : IfCut) (targetPartition : Int) : Bool :=
  match p.vPartition with
  | none => true
  | some v =>
    if targetPartition < 0 then true
    else pCut.leaves.all (fun leafId =>
      if leafId ≥ v.length then true
      else
        let leafPartition := v.getD leafId (-1)
        if leafPartition = -1 then true
        else if leafPartition ≠ targetPartition then If_ObjIsPartitionInput p leafId targetPartition
        else true)

/-- Partition id of a leaf as the engine sees it: the vector entry when the id
is in range, and the don't-care value `-1` otherwise (this is exactly
`If_ObjPartition` read at a leaf id). -/
def leafPartitionOf (p : IfMan) (leafId : Nat) : Int :=
  match p.vPartition with
  | none => -1
  | some v => if leafId ≥ v.length then -1 else v.getD leafId (-1)

/-- Locality predicate of the specification: the leaf lies in the target
partition, or is a recorded partition input of it, or carries the don't-care
partition `-1`. -/
def cutLocal (p : IfMan) (target : Int) (c : IfCut) : Prop :=
  ∀ l ∈ c.leaves,
    leafPartitionOf p l = target ∨ If_ObjIsPartitionInput p l target = true ∨
      leafPartitionOf p l = -1

instance (p : IfMan) (target : Int) (c : IfCut) : Decidable (cutLocal p target c) := by
  unfold cutLocal; infer_instance

/-- Per-leaf reading of the `If_CutCheckPartition` loop body: the leaf passes
the filter exactly when it satisfies the locality predicate. -/
theorem leafCheck_iff (p : IfMan) (v : List Int) (t : Int) (l : Nat)
    (hv : p.vPartition = some v) (ht : 0 ≤ t) :
    ((if l ≥ v.length then true
      else if v.getD l (-1) = -1 then true
      else if v.getD l (-1) ≠ t then If_ObjIsPartitionInput p l t
      else true) = true)
    ↔ (leafPartitionOf p l = t ∨ If_ObjIsPartitionInput p l t = true ∨
        leafPartitionOf p l = -1) := by
  have hL : leafPartitionOf p l = if l ≥ v.length then -1 else v.getD l (-1) := by
    unfold leafPartitionOf; rw [hv]
  rw [hL]
  by_cases hrange : l ≥ v.length
  · rw [if_pos hrange, if_pos hrange]
    constructor
    · intro _; exact Or.inr (Or.inr rfl)
    · intro _; rfl
  · rw [if_neg hrange, if_neg hrange]
    generalize v.getD l (-1) = d
    by_cases hm1 : d = -1
    · subst hm1
      simp
    · rw [if_neg hm1]
      by_cases heq : d = t
      · subst heq
        simp
      · rw [if_pos heq]
        constructor
        · intro hx; exact Or.inr (Or.inl hx)
        · rintro (hx | hx | hx)
          · exact absurd hx heq
          · exact hx
          · exact absurd hx hm1

/-- Acceptance by `If_CutCheckPartition` coincides with the locality predicate
whenever a partition vector is attached and the target partition is
non-negative. -/
theorem If_CutCheckPartition_iff_cutLocal (p : IfMan) (v : List Int) (t : Int) (c : IfCut)
    (hv : p.vPartition = some v) (ht : 0 ≤ t) :
    If_CutCheckPartition p c t = true ↔ cutLocal p t c := by
  have hcheck : If_CutCheckPartition p c t
      = c.leaves.all (fun leafId =>
          if leafId ≥ v.length then true
          else if v.getD leafId (-1) = -1 then true
          else if v.getD leafId (-1) ≠ t then If_ObjIsPartitionInput p leafId t
          else true) := by
    simp only [If_CutCheckPartition, hv]
    rw [if_neg (not_lt.mpr ht)]
  rw [hcheck]
  unfold cutLocal
  rw [List.all_eq_true]
  constructor
  · intro h l hl; exact (leafCheck_iff p v t l hv ht).mp (h l hl)
  · intro h l hl; exact (leafCheck_iff p v t l hv ht).mpr (h l hl)

/-! ## The partition-constrained cut engine (ifPartition.c lines 270-426)

The engine mutates one AND node and its two fanins; the mutated slice of the
manager state is captured by `IfNodeCtx`.  Routines of the generic priority-cut
engine (out of scope per the specification, and not part of the given sources)
are abstracted into `IfExt`; the return types of the area (de)referencing and
cut-set recycling helpers encode the only state they touch (reference counts,
respectively the fanin cut-set slots), and the proof-relevant facts about cut
sorting, cut filtering and trivial-cut setup are recorded as propositional
fields.  `If_ManSetupCutTriv` and its `setupCutTriv_leaves` law are modelled
from the spec: "a trivial cut (the node as its own sole leaf)".  The C local
variables (`st1`, `pCut2`, ...) are inlined rather than let-bound; each
definition notes the source lines it translates. -/

/-- The node being processed together with its two fanins. -/
structure IfNodeCtx where
  obj : IfObj
  fanin0 : IfObj
  fanin1 : IfObj
deriving DecidableEq

/-- External collaborator routines of the generic mapper used by
`If_ObjPerformMappingAndPartitionAware`, with their well-behavedness laws. -/
structure IfExt where
  cutMergeOrdered : IfCut → IfCut → Option IfCut
  cutFilter : List IfCut → IfCut → Option (List IfCut)
  cutComputeTruth : IfCut → IfCut → IfCut → Bool → Bool → Bool
  cutDelay : IfObj → IfCut → Rat
  cutAreaFlow : IfCut → Rat
  setupCutTriv : Nat → IfCut
  cutSort : List IfCut → IfCut → List IfCut
  areaDerefRefs : IfCut → IfNodeCtx → Nat × Nat × Nat
  areaRefRefs : IfCut → IfNodeCtx → Nat × Nat × Nat
  derefNodeCutSets : IfNodeCtx → Option (List IfCut) × Option (List IfCut)
  standardMapping : IfNodeCtx → Int → Bool → Bool → IfNodeCtx
  cutFilter_subset : ∀ s c s', cutFilter s c = some s' → ∀ x ∈ s', x ∈ s
  cutSort_subset : ∀ s c x, x ∈ cutSort s c → x = c ∨ x ∈ s
  setupCutTriv_leaves : ∀ i, (setupCutTriv i).leaves = [i]

/-- State threaded through the merge loop: the growing cut set and the
`nCutsMerged`/accepted counters. -/
structure IfLoopState where
  cuts : List IfCut
  nMerged : Nat
  nAccepted : Nat
deriving DecidableEq

/-- Lines 384-390: the accepted candidate with its delay (`If_CutDelay`) and
then its area-flow (`If_CutAreaFlow`, computed on the cut carrying the new
delay) filled in. -/
def If_MergeAcceptCut (ext : IfExt) (obj : IfObj) (pCut : IfCut) : IfCut :=
  { pCut with delay := ext.cutDelay obj pCut,
              area := ext.cutAreaFlow { pCut with delay := ext.cutDelay obj pCut } }

/-- Body of the double loop over fanin-cut pairs (ifPartition.c lines 346-394):
feasibility check on the signatures, structural merge, the partition filter
(applied right after the merge, before the delay and area of the candidate are
computed), `nCutsMerged` counting, redundancy filter, optional truth
computation, delay/area computation and sorted insertion. -/
def If_ObjMergeStep (ext : IfExt) (p : IfMan) (obj : IfObj) (objPartition : Int)
    (st : IfLoopState) (pCut0 pCut1 : IfCut) : IfLoopState :=
  if If_WordCountOnes (pCut0.uSign ||| pCut1.uSign) > p.nLutSize then st
  else
    match ext.cutMergeOrdered pCut0 pCut1 with
    | none => st
    | some pCut =>
      if p.vPartition.isSome ∧ 0 ≤ objPartition ∧ If_CutCheckPartition p pCut objPartition = false
      then st
      else
        match (if ¬ p.fSkipCutFilter then ext.cutFilter st.cuts pCut else some st.cuts) with
        | none => { st with nMerged := st.nMerged + 1 }
        | some cutsF =>
          if p.fTruth ∧ ext.cutComputeTruth pCut pCut0 pCut1 obj.fCompl0 obj.fCompl1 = false
          then { st with nMerged := st.nMerged + 1, cuts := cutsF }
          else if ext.cutDelay obj pCut = -1
          then { st with nMerged := st.nMerged + 1, cuts := cutsF }
          else
            { st with nMerged := st.nMerged + 1,
                      cuts := ext.cutSort cutsF (If_MergeAcceptCut ext obj pCut),
                      nAccepted := st.nAccepted + 1 }

/-- Lines 289-292: mode-dependent initialization of the node's estimated
reference count. -/
def If_MapAndStage1 (ctx : IfNodeCtx) (Mode : Int) : IfNodeCtx :=
  if Mode = 0 then { ctx with obj := { ctx.obj with estRefs := (ctx.obj.nRefs : Rat) } }
  else if Mode = 1 then
    { ctx with obj := { ctx.obj with estRefs := (2 * ctx.obj.estRefs + (ctx.obj.nRefs : Rat)) / 3 } }
  else ctx

/-- Overwrite the three tracked reference counts (the only state the area
referencing helpers of the generic engine touch). -/
def applyRefs (ctx : IfNodeCtx) (r : Nat × Nat × Nat) : IfNodeCtx :=
  { obj := { ctx.obj with nRefs := r.1 },
    fanin0 := { ctx.fanin0 with nRefs := r.2.1 },
    fanin1 := { ctx.fanin1 with nRefs := r.2.2 } }

/-- Lines 295-296: dereference the area of the selected cut when re-mapping a
referenced node. -/
def If_MapAndStage2 (ext : IfExt) (ctx : IfNodeCtx) (Mode : Int) : IfNodeCtx :=
  if Mode ≠ 0 ∧ ctx.obj.nRefs > 0 then applyRefs ctx (ext.areaDerefRefs ctx.obj.cutBest ctx)
  else ctx

/-- Lines 310-326: read the partition ids (all `-1` when no partition vector
is attached, which also makes both cross flags false, exactly as in the C
guard `if (p->vPartition)`), and lazily initialize the estimated reference
count of each cross-partition fanin. -/
def If_MapAndFaninInit (p : IfMan) (ctx : IfNodeCtx) : IfNodeCtx :=
  { ctx with
    fanin0 :=
      if (If_ObjPartition p ctx.fanin0 ≠ If_ObjPartition p ctx.obj ∧
          0 ≤ If_ObjPartition p ctx.fanin0 ∧ 0 ≤ If_ObjPartition p ctx.obj) ∧
          ctx.fanin0.estRefs ≤ p.fEpsilon then
        { ctx.fanin0 with estRefs := if ctx.fanin0.nRefs > 0 then (ctx.fanin0.nRefs : Rat) else 1 }
      else ctx.fanin0,
    fanin1 :=
      if (If_ObjPartition p ctx.fanin1 ≠ If_ObjPartition p ctx.obj ∧
          0 ≤ If_ObjPartition p ctx.fanin1 ∧ 0 ≤ If_ObjPartition p ctx.obj) ∧
          ctx.fanin1.estRefs ≤ p.fEpsilon then
        { ctx.fanin1 with estRefs := if ctx.fanin1.nRefs > 0 then (ctx.fanin1.nRefs : Rat) else 1 }
      else ctx.fanin1 }

/-- Lines 336-338: the previous best cut with its delay and area-flow
recomputed in place. -/
def If_SaveBestCut (ext : IfExt) (obj : IfObj) : IfCut :=
  { obj.cutBest with
    delay := ext.cutDelay obj obj.cutBest,
    area := ext.cutAreaFlow { obj.cutBest with delay := ext.cutDelay obj obj.cutBest } }

/-- Lines 332-343: on a non-first invocation, recompute the delay and
area-flow of the current best cut in place and, unless preprocessing with a
non-trivial best cut, save a copy into the fresh cut set (`If_ManSetupNodeCutSet`
has just produced the empty set). -/
def If_MapAndSaveBest (ext : IfExt) (obj : IfObj) (fPreprocess fFirst : Bool) :
    IfObj × List IfCut :=
  if fFirst then (obj, [])
  else if ¬ fPreprocess ∨ (If_SaveBestCut ext obj).leaves.length ≤ 1 then
    ({ obj with cutBest := If_SaveBestCut ext obj }, [If_SaveBestCut ext obj])
  else ({ obj with cutBest := If_SaveBestCut ext obj }, [])

/-- Lines 346-395 as a single value: the state of the merge loop after all
fanin-cut pairs have been tried, starting from the cut set produced by
`If_MapAndSaveBest`. -/
def If_MapAndLoop (ext : IfExt) (p : IfMan) (ctx2 : IfNodeCtx)
    (fPreprocess fFirst : Bool) : IfLoopState :=
  ((If_MapAndFaninInit p ctx2).fanin0.cutSet.getD []).foldl
    (fun st c0 => ((If_MapAndFaninInit p ctx2).fanin1.cutSet.getD []).foldl
      (fun st c1 => If_ObjMergeStep ext p
        (If_MapAndSaveBest ext (If_MapAndFaninInit p ctx2).obj fPreprocess fFirst).1
        (If_ObjPartition p ctx2.obj) st c0 c1) st)
    { cuts := (If_MapAndSaveBest ext (If_MapAndFaninInit p ctx2).obj fPreprocess fFirst).2,
      nMerged := 0, nAccepted := 0 }

/-- Lines 397-403: the cut set after the trivial-cut fallback (when the merge
loop kept nothing, a trivial cut of the node is synthesized into slot 0). -/
def If_MapAndCuts2 (ext : IfExt) (obj3 : IfObj) (loopCuts : List IfCut) : List IfCut :=
  if loopCuts = [] then [ext.setupCutTriv obj3.objId] else loopCuts

/-- Lines 407-411: the node with its best cut updated from the head of the cut
set (kept unchanged while preprocessing when the head's delay misses the
required time). -/
def If_MapAndObj4 (ext : IfExt) (p : IfMan) (obj3 : IfObj) (loopCuts : List IfCut)
    (fPreprocess : Bool) : IfObj :=
  if ¬ fPreprocess ∨
      (If_MapAndCuts2 ext obj3 loopCuts).headI.delay ≤ obj3.required + p.fEpsilon then
    { obj3 with cutBest := (If_MapAndCuts2 ext obj3 loopCuts).headI }
  else obj3

/-- Lines 413-418: the final cut set, with a trivial cut appended when the
selected best cut is non-trivial and the node is not marked `fSkipCut`. -/
def If_MapAndCuts3 (ext : IfExt) (p : IfMan) (obj3 : IfObj) (loopCuts : List IfCut)
    (fPreprocess : Bool) : List IfCut :=
  if (If_MapAndObj4 ext p obj3 loopCuts fPreprocess).fSkipCut = false ∧
      (If_MapAndObj4 ext p obj3 loopCuts fPreprocess).cutBest.leaves.length > 1 then
    If_MapAndCuts2 ext obj3 loopCuts ++
      [ext.setupCutTriv (If_MapAndObj4 ext p obj3 loopCuts fPreprocess).objId]
  else If_MapAndCuts2 ext obj3 loopCuts

/-- Lines 397-418 combined: the updated node (now owning the final cut set)
and that cut set. -/
def If_MapAndFinalize (ext : IfExt) (p : IfMan) (obj3 : IfObj) (loopCuts : List IfCut)
    (fPreprocess : Bool) : IfObj × List IfCut :=
  ({ If_MapAndObj4 ext p obj3 loopCuts fPreprocess with
      cutSet := some (If_MapAndCuts3 ext p obj3 loopCuts fPreprocess) },
    If_MapAndCuts3 ext p obj3 loopCuts fPreprocess)

/-- The node as it stands after the finalize phase of the non-fallback path. -/
def If_MapAndObjFin (ext : IfExt) (p : IfMan) (ctx2 : IfNodeCtx)
    (fPreprocess fFirst : Bool) : IfObj :=
  (If_MapAndFinalize ext p
    (If_MapAndSaveBest ext (If_MapAndFaninInit p ctx2).obj fPreprocess fFirst).1
    (If_MapAndLoop ext p ctx2 fPreprocess fFirst).cuts fPreprocess).1

/-- The context after finalize (fanins from the lazy-initialization phase, the
node from finalize). -/
def If_MapAndCtx4 (ext : IfExt) (p : IfMan) (ctx2 : IfNodeCtx)
    (fPreprocess fFirst : Bool) : IfNodeCtx :=
  { If_MapAndFaninInit p ctx2 with obj := If_MapAndObjFin ext p ctx2 fPreprocess fFirst }

/-- Lines 420-422: reference the selected cut when re-mapping a referenced
node. -/
def If_MapAndCtx5 (ext : IfExt) (p : IfMan) (ctx2 : IfNodeCtx) (Mode : Int)
    (fPreprocess fFirst : Bool) : IfNodeCtx :=
  if Mode ≠ 0 ∧ (If_MapAndObjFin ext p ctx2 fPreprocess fFirst).nRefs > 0 then
    applyRefs (If_MapAndCtx4 ext p ctx2 fPreprocess fFirst)
      (ext.areaRefRefs (If_MapAndObjFin ext p ctx2 fPreprocess fFirst).cutBest
        (If_MapAndCtx4 ext p ctx2 fPreprocess fFirst))
  else If_MapAndCtx4 ext p ctx2 fPreprocess fFirst

/-- Result of one engine invocation: the updated node/fanin slice, the number
of merged candidate cuts that were accepted (inserted by `If_CutSort`), and
whether the missing-fanin-cut-set fallback to the ordinary mapping routine was
taken. -/
structure IfMapResult where
  ctx : IfNodeCtx
  nAccepted : Nat
  usedFallback : Bool
deriving DecidableEq

/-- Lines 310-426 (the non-fallback path), taking the context as it stands
after the estimated-reference/dereference prologue; line 425
(`If_ManDerefNodeCutSet`) may release the fanin cut sets. -/
def If_MapAndBody (ext : IfExt) (p : IfMan) (ctx2 : IfNodeCtx) (Mode : Int)
    (fPreprocess fFirst : Bool) : IfMapResult :=
  { ctx :=
      { If_MapAndCtx5 ext p ctx2 Mode fPreprocess fFirst with
        fanin0 := { (If_MapAndCtx5 ext p ctx2 Mode fPreprocess fFirst).fanin0 with
          cutSet := (ext.derefNodeCutSets (If_MapAndCtx5 ext p ctx2 Mode fPreprocess fFirst)).1 },
        fanin1 := { (If_MapAndCtx5 ext p ctx2 Mode fPreprocess fFirst).fanin1 with
          cutSet := (ext.derefNodeCutSets (If_MapAndCtx5 ext p ctx2 Mode fPreprocess fFirst)).2 } },
    nAccepted := (If_MapAndLoop ext p ctx2 fPreprocess fFirst).nAccepted,
    usedFallback := false }

/-- `If_ObjPerformMappingAndPartitionAware` (ifPartition.c lines 270-426),
assembled from the phase functions above in source order. -/
def If_ObjPerformMappingAndPartitionAware (ext : IfExt) (p : IfMan) (ctx0 : IfNodeCtx)
    (Mode : Int) (fPreprocess fFirst : Bool) : IfMapResult :=
  if ¬ fFirst ∧
      ((If_MapAndStage2 ext (If_MapAndStage1 ctx0 Mode) Mode).fanin0.cutSet = none ∨
       (If_MapAndStage2 ext (If_MapAndStage1 ctx0 Mode) Mode).fanin1.cutSet = none) then
    { ctx := ext.standardMapping (If_MapAndStage2 ext (If_MapAndStage1 ctx0 Mode) Mode)
        Mode fPreprocess fFirst,
      nAccepted := 0, usedFallback := true }
  else If_MapAndBody ext p (If_MapAndStage2 ext (If_MapAndStage1 ctx0 Mode) Mode)
    Mode fPreprocess fFirst

/-! ## Merge-loop lemmas -/

/-- One merge step never decreases the accepted counter, and when it accepts
nothing the cut set can only shrink (the redundancy filter may drop dominated
stored cuts even for a candidate that is later discarded). -/
theorem If_ObjMergeStep_acc (ext : IfExt) (p : IfMan) (obj : IfObj) (t : Int)
    (st : IfLoopState) (c0 c1 : IfCut) :
    st.nAccepted ≤ (If_ObjMergeStep ext p obj t st c0 c1).nAccepted ∧
    ((If_ObjMergeStep ext p obj t st c0 c1).nAccepted = st.nAccepted →
      ∀ x ∈ (If_ObjMergeStep ext p obj t st c0 c1).cuts, x ∈ st.cuts) := by
  unfold If_ObjMergeStep
  by_cases hfeas : If_WordCountOnes (c0.uSign ||| c1.uSign) > p.nLutSize
  · rw [if_pos hfeas]; exact ⟨le_refl _, fun _ x hx => hx⟩
  · rw [if_neg hfeas]
    cases hmerge : ext.cutMergeOrdered c0 c1 with
    | none => exact ⟨le_refl _, fun _ x hx => hx⟩
    | some pCut =>
      dsimp only
      by_cases hp : p.vPartition.isSome = true ∧ 0 ≤ t ∧ If_CutCheckPartition p pCut t = false
      · rw [if_pos hp]; exact ⟨le_refl _, fun _ x hx => hx⟩
      · rw [if_neg hp]
        cases hfil : (if ¬ p.fSkipCutFilter then ext.cutFilter st.cuts pCut else some st.cuts) with
        | none => exact ⟨le_refl _, fun _ x hx => hx⟩
        | some cutsF =>
          dsimp only
          have hsub : ∀ x ∈ cutsF, x ∈ st.cuts := by
            by_cases hs : p.fSkipCutFilter = true
            · rw [if_neg (by simp [hs])] at hfil
              intro x hx
              cases hfil
              exact hx
            · rw [if_pos (by simpa using hs)] at hfil
              exact ext.cutFilter_subset _ _ _ hfil
          by_cases htr : p.fTruth = true ∧ ext.cutComputeTruth pCut c0 c1 obj.fCompl0 obj.fCompl1 = false
          · rw [if_pos htr]; exact ⟨le_refl _, fun _ x hx => hsub x hx⟩
          · rw [if_neg htr]
            by_cases hd : ext.cutDelay obj pCut = -1
            · rw [if_pos hd]; exact ⟨le_refl _, fun _ x hx => hsub x hx⟩
            · rw [if_neg hd]
              exact ⟨Nat.le_succ _, fun hacc => absurd hacc (by simp)⟩

/-- Folding a step with the accounting property of `If_ObjMergeStep_acc`
keeps that property. -/
theorem foldl_acc_spec {β : Type} (f : IfLoopState → β → IfLoopState)
    (hf : ∀ st b, st.nAccepted ≤ (f st b).nAccepted ∧
      ((f st b).nAccepted = st.nAccepted → ∀ x ∈ (f st b).cuts, x ∈ st.cuts)) :
    ∀ (l : List β) (st : IfLoopState),
      st.nAccepted ≤ (l.foldl f st).nAccepted ∧
      ((l.foldl f st).nAccepted = st.nAccepted → ∀ x ∈ (l.foldl f st).cuts, x ∈ st.cuts)
  | [], st => ⟨le_refl _, fun _ x hx => hx⟩
  | b :: l, st => by
      have h1 := hf st b
      have h2 := foldl_acc_spec f hf l (f st b)
      rw [List.foldl_cons]
      refine ⟨le_trans h1.1 h2.1, fun heq x hx => ?_⟩
      have hmid : (f st b).nAccepted = st.nAccepted :=
        le_antisymm (heq ▸ h2.1) h1.1
      exact h1.2 hmid x (h2.2 (heq.trans hmid.symm) x hx)

/-- The double fold over both fanins' cuts inherits the accounting property. -/
theorem foldl2_acc_spec {β γ : Type} (g : IfLoopState → β → γ → IfLoopState)
    (hg : ∀ st b c, st.nAccepted ≤ (g st b c).nAccepted ∧
      ((g st b c).nAccepted = st.nAccepted → ∀ x ∈ (g st b c).cuts, x ∈ st.cuts))
    (l1 : List β) (l2 : List γ) (st : IfLoopState) :
    st.nAccepted ≤ (l1.foldl (fun st b => l2.foldl (fun st c => g st b c) st) st).nAccepted ∧
    ((l1.foldl (fun st b => l2.foldl (fun st c => g st b c) st) st).nAccepted = st.nAccepted →
      ∀ x ∈ (l1.foldl (fun st b => l2.foldl (fun st c => g st b c) st) st).cuts, x ∈ st.cuts) :=
  foldl_acc_spec (fun st b => l2.foldl (fun st c => g st b c) st)
    (fun st b => foldl_acc_spec (fun st c => g st b c) (fun st c => hg st b c) l2 st) l1 st

/-- When the whole merge loop accepts zero cuts, every cut it leaves behind is
one of the cuts saved before the loop. -/
theorem If_MapAndLoop_acc (ext : IfExt) (p : IfMan) (ctx2 : IfNodeCtx)
    (fPreprocess fFirst : Bool) :
    (If_MapAndLoop ext p ctx2 fPreprocess fFirst).nAccepted = 0 →
      ∀ x ∈ (If_MapAndLoop ext p ctx2 fPreprocess fFirst).cuts,
        x ∈ (If_MapAndSaveBest ext (If_MapAndFaninInit p ctx2).obj fPreprocess fFirst).2 := by
  intro h0 x hx
  exact (foldl2_acc_spec
    (fun st c0 c1 => If_ObjMergeStep ext p
      (If_MapAndSaveBest ext (If_MapAndFaninInit p ctx2).obj fPreprocess fFirst).1
      (If_ObjPartition p ctx2.obj) st c0 c1)
    (fun st c0 c1 => If_ObjMergeStep_acc ext p _ _ st c0 c1)
    ((If_MapAndFaninInit p ctx2).fanin0.cutSet.getD [])
    ((If_MapAndFaninInit p ctx2).fanin1.cutSet.getD [])
    { cuts := (If_MapAndSaveBest ext (If_MapAndFaninInit p ctx2).obj fPreprocess fFirst).2,
      nMerged := 0, nAccepted := 0 }).2 h0 x hx

/-- Folding a step that preserves a predicate on all stored cuts keeps it. -/
theorem foldl_cuts_pred {β : Type} (f : IfLoopState → β → IfLoopState) (P : IfCut → Prop)
    (hf : ∀ st b, (∀ x ∈ st.cuts, P x) → ∀ x ∈ (f st b).cuts, P x) :
    ∀ (l : List β) (st : IfLoopState),
      (∀ x ∈ st.cuts, P x) → ∀ x ∈ (l.foldl f st).cuts, P x
  | [], _ => fun h => h
  | b :: l, st => by
      intro h
      rw [List.foldl_cons]
      exact foldl_cuts_pred f P hf l (f st b) (hf st b h)

/-- One merge step preserves "every stored cut satisfies the locality
predicate" once a partition vector is attached and the target partition is
non-negative: a candidate only reaches `If_CutSort` after passing
`If_CutCheckPartition`. -/
theorem If_ObjMergeStep_local (ext : IfExt) (p : IfMan) (obj : IfObj) (v : List Int) (t : Int)
    (st : IfLoopState) (c0 c1 : IfCut) (hv : p.vPartition = some v) (ht : 0 ≤ t)
    (hst : ∀ x ∈ st.cuts, cutLocal p t x) :
    ∀ x ∈ (If_ObjMergeStep ext p obj t st c0 c1).cuts, cutLocal p t x := by
  unfold If_ObjMergeStep
  by_cases hfeas : If_WordCountOnes (c0.uSign ||| c1.uSign) > p.nLutSize
  · rw [if_pos hfeas]; exact hst
  · rw [if_neg hfeas]
    cases hmerge : ext.cutMergeOrdered c0 c1 with
    | none => exact hst
    | some pCut =>
      dsimp only
      by_cases hp : p.vPartition.isSome = true ∧ 0 ≤ t ∧ If_CutCheckPartition p pCut t = false
      · rw [if_pos hp]; exact hst
      · rw [if_neg hp]
        have hcheck : If_CutCheckPartition p pCut t = true := by
          rcases Bool.eq_false_or_eq_true (If_CutCheckPartition p pCut t) with hc | hc
          · exact hc
          · exact absurd ⟨by simp [hv], ht, hc⟩ hp
        have hlocal : cutLocal p t pCut :=
          (If_CutCheckPartition_iff_cutLocal p v t pCut hv ht).mp hcheck
        cases hfil : (if ¬ p.fSkipCutFilter then ext.cutFilter st.cuts pCut else some st.cuts) with
        | none => exact hst
        | some cutsF =>
          dsimp only
          have hsub : ∀ x ∈ cutsF, cutLocal p t x := by
            by_cases hs : p.fSkipCutFilter = true
            · rw [if_neg (by simp [hs])] at hfil
              intro x hx
              cases hfil
              exact hst x hx
            · rw [if_pos (by simpa using hs)] at hfil
              exact fun x hx => hst x (ext.cutFilter_subset _ _ _ hfil x hx)
          by_cases htr : p.fTruth = true ∧ ext.cutComputeTruth pCut c0 c1 obj.fCompl0 obj.fCompl1 = false
          · rw [if_pos htr]; exact hsub
          · rw [if_neg htr]
            by_cases hd : ext.cutDelay obj pCut = -1
            · rw [if_pos hd]; exact hsub
            · rw [if_neg hd]
              intro x hx
              rcases ext.cutSort_subset _ _ x hx with rfl | hx'
              · unfold cutLocal at hlocal ⊢
                unfold If_MergeAcceptCut
                exact hlocal
              · exact hsub x hx'

/-- Head of a nonempty list (with default) is a member. -/
theorem headI_mem {α : Type} [Inhabited α] {l : List α} (h : l ≠ []) : l.headI ∈ l := by
  cases l with
  | nil => exact absurd rfl h
  | cons a t => simp

/-! ## Phase preservation lemmas -/

/-- The prologue (estimated-reference update, area dereference, lazy fanin
initialization) does not touch the node's id, best cut, skip flag or required
time. -/
theorem prologue_obj_fields (ext : IfExt) (p : IfMan) (ctx0 : IfNodeCtx) (Mode : Int) :
    ((If_MapAndFaninInit p (If_MapAndStage2 ext (If_MapAndStage1 ctx0 Mode) Mode)).obj.objId
        = ctx0.obj.objId) ∧
    ((If_MapAndFaninInit p (If_MapAndStage2 ext (If_MapAndStage1 ctx0 Mode) Mode)).obj.cutBest
        = ctx0.obj.cutBest) ∧
    ((If_MapAndFaninInit p (If_MapAndStage2 ext (If_MapAndStage1 ctx0 Mode) Mode)).obj.fSkipCut
        = ctx0.obj.fSkipCut) := by
  unfold If_MapAndFaninInit If_MapAndStage2 If_MapAndStage1 applyRefs
  split_ifs <;> simp

/-- The two prologue stages preserve the fanins entirely except for their
reference counts, and the node's id. -/
theorem prologue_fanin_fields (ext : IfExt) (ctx0 : IfNodeCtx) (Mode : Int) :
    ((If_MapAndStage2 ext (If_MapAndStage1 ctx0 Mode) Mode).fanin0.estRefs
        = ctx0.fanin0.estRefs) ∧
    ((If_MapAndStage2 ext (If_MapAndStage1 ctx0 Mode) Mode).fanin0.objId
        = ctx0.fanin0.objId) ∧
    ((If_MapAndStage2 ext (If_MapAndStage1 ctx0 Mode) Mode).fanin0.cutSet
        = ctx0.fanin0.cutSet) ∧
    ((If_MapAndStage2 ext (If_MapAndStage1 ctx0 Mode) Mode).fanin1.estRefs
        = ctx0.fanin1.estRefs) ∧
    ((If_MapAndStage2 ext (If_MapAndStage1 ctx0 Mode) Mode).fanin1.objId
        = ctx0.fanin1.objId) ∧
    ((If_MapAndStage2 ext (If_MapAndStage1 ctx0 Mode) Mode).fanin1.cutSet
        = ctx0.fanin1.cutSet) ∧
    ((If_MapAndStage2 ext (If_MapAndStage1 ctx0 Mode) Mode).obj.objId
        = ctx0.obj.objId) := by
  unfold If_MapAndStage2 If_MapAndStage1 applyRefs
  split_ifs <;> simp

/-- `If_ObjPartition` only reads the object's id. -/
theorem If_ObjPartition_congr (p : IfMan) (o o' : IfObj) (h : o.objId = o'.objId) :
    If_ObjPartition p o = If_ObjPartition p o' := by
  unfold If_ObjPartition
  cases p.vPartition <;> simp [h]

/-- `If_MapAndSaveBest` keeps the node's id and skip flag, keeps the leaves of
the best cut, and every cut it saves is the (recomputed) best cut. -/
theorem If_MapAndSaveBest_spec (ext : IfExt) (obj : IfObj) (fPre fFirst : Bool) :
    ((If_MapAndSaveBest ext obj fPre fFirst).1.objId = obj.objId) ∧
    ((If_MapAndSaveBest ext obj fPre fFirst).1.fSkipCut = obj.fSkipCut) ∧
    ((If_MapAndSaveBest ext obj fPre fFirst).1.cutBest.leaves = obj.cutBest.leaves) ∧
    (∀ x ∈ (If_MapAndSaveBest ext obj fPre fFirst).2,
      x = (If_MapAndSaveBest ext obj fPre fFirst).1.cutBest) := by
  unfold If_MapAndSaveBest If_SaveBestCut
  split_ifs <;> simp

/-- The cut set after the trivial-cut fallback is never empty. -/
theorem If_MapAndCuts2_ne_nil (ext : IfExt) (obj3 : IfObj) (loopCuts : List IfCut) :
    If_MapAndCuts2 ext obj3 loopCuts ≠ [] := by
  unfold If_MapAndCuts2
  split_ifs with h
  · simp
  · exact h

/-- The final cut set is never empty. -/
theorem If_MapAndCuts3_ne_nil (ext : IfExt) (p : IfMan) (obj3 : IfObj)
    (loopCuts : List IfCut) (fPre : Bool) :
    If_MapAndCuts3 ext p obj3 loopCuts fPre ≠ [] := by
  unfold If_MapAndCuts3
  split_ifs with h
  · simp
  · exact If_MapAndCuts2_ne_nil ext obj3 loopCuts

/-- Cuts surviving to the post-fallback set are loop cuts or the synthesized
trivial cut. -/
theorem If_MapAndCuts2_mem (ext : IfExt) (obj3 : IfObj) (loopCuts : List IfCut) (x : IfCut)
    (hx : x ∈ If_MapAndCuts2 ext obj3 loopCuts) :
    x ∈ loopCuts ∨ x = ext.setupCutTriv obj3.objId := by
  unfold If_MapAndCuts2 at hx
  split_ifs at hx with h
  · right; simpa using hx
  · left; exact hx

/-- The best-cut update step keeps the id, skip flag and cut-set slot, and the
resulting best cut is the head of the set or the previous best cut. -/
theorem If_MapAndObj4_fields (ext : IfExt) (p : IfMan) (obj3 : IfObj)
    (loopCuts : List IfCut) (fPre : Bool) :
    ((If_MapAndObj4 ext p obj3 loopCuts fPre).objId = obj3.objId) ∧
    ((If_MapAndObj4 ext p obj3 loopCuts fPre).fSkipCut = obj3.fSkipCut) ∧
    ((If_MapAndObj4 ext p obj3 loopCuts fPre).cutBest
        = (If_MapAndCuts2 ext obj3 loopCuts).headI ∨
      (If_MapAndObj4 ext p obj3 loopCuts fPre).cutBest = obj3.cutBest) := by
  unfold If_MapAndObj4
  split_ifs <;> simp

/-- Cuts in the final set are cuts of the post-fallback set or the appended
trivial cut. -/
theorem If_MapAndCuts3_mem (ext : IfExt) (p : IfMan) (obj3 : IfObj)
    (loopCuts : List IfCut) (fPre : Bool) (x : IfCut)
    (hx : x ∈ If_MapAndCuts3 ext p obj3 loopCuts fPre) :
    x ∈ If_MapAndCuts2 ext obj3 loopCuts ∨ x = ext.setupCutTriv obj3.objId := by
  unfold If_MapAndCuts3 at hx
  split_ifs at hx with h
  · rcases List.mem_append.mp hx with h1 | h1
    · left; exact h1
    · right
      rw [(If_MapAndObj4_fields ext p obj3 loopCuts fPre).1] at h1
      simpa using h1
  · left; exact hx

/-- Projections of the non-fallback body: the node ends up owning the final
cut set, its best cut is the one selected by the best-update step, its id is
unchanged, the fanins keep the estimated references assigned by the lazy
initialization, and the accepted counter is the loop's. -/
theorem If_MapAndBody_proj (ext : IfExt) (p : IfMan) (ctx2 : IfNodeCtx) (Mode : Int)
    (fPre fFirst : Bool) :
    ((If_MapAndBody ext p ctx2 Mode fPre fFirst).ctx.obj.cutSet
        = some (If_MapAndCuts3 ext p
            (If_MapAndSaveBest ext (If_MapAndFaninInit p ctx2).obj fPre fFirst).1
            (If_MapAndLoop ext p ctx2 fPre fFirst).cuts fPre)) ∧
    ((If_MapAndBody ext p ctx2 Mode fPre fFirst).ctx.obj.cutBest
        = (If_MapAndObj4 ext p
            (If_MapAndSaveBest ext (If_MapAndFaninInit p ctx2).obj fPre fFirst).1
            (If_MapAndLoop ext p ctx2 fPre fFirst).cuts fPre).cutBest) ∧
    ((If_MapAndBody ext p ctx2 Mode fPre fFirst).nAccepted
        = (If_MapAndLoop ext p ctx2 fPre fFirst).nAccepted) ∧
    ((If_MapAndBody ext p ctx2 Mode fPre fFirst).ctx.fanin0.estRefs
        = (If_MapAndFaninInit p ctx2).fanin0.estRefs) ∧
    ((If_MapAndBody ext p ctx2 Mode fPre fFirst).ctx.fanin1.estRefs
        = (If_MapAndFaninInit p ctx2).fanin1.estRefs) := by
  unfold If_MapAndBody If_MapAndCtx5 If_MapAndCtx4 If_MapAndObjFin If_MapAndFinalize applyRefs
  split_ifs <;> simp

/-- Every cut left in the loop state satisfies the locality predicate,
provided the initial (saved) cuts do. -/
theorem If_MapAndLoop_local (ext : IfExt) (p : IfMan) (ctx2 : IfNodeCtx)
    (fPre fFirst : Bool) (v : List Int)
    (hv : p.vPartition = some v) (ht : 0 ≤ If_ObjPartition p ctx2.obj)
    (hinit : ∀ x ∈ (If_MapAndSaveBest ext (If_MapAndFaninInit p ctx2).obj fPre fFirst).2,
      cutLocal p (If_ObjPartition p ctx2.obj) x) :
    ∀ x ∈ (If_MapAndLoop ext p ctx2 fPre fFirst).cuts,
      cutLocal p (If_ObjPartition p ctx2.obj) x := by
  exact foldl_cuts_pred _ _
    (fun st c0 hst =>
      foldl_cuts_pred _ _
        (fun st c1 hst => If_ObjMergeStep_local ext p
          (If_MapAndSaveBest ext (If_MapAndFaninInit p ctx2).obj fPre fFirst).1
          v (If_ObjPartition p ctx2.obj) st c0 c1 hv ht hst)
        ((If_MapAndFaninInit p ctx2).fanin1.cutSet.getD []) st hst)
    ((If_MapAndFaninInit p ctx2).fanin0.cutSet.getD [])
    { cuts := (If_MapAndSaveBest ext (If_MapAndFaninInit p ctx2).obj fPre fFirst).2,
      nMerged := 0, nAccepted := 0 }
    hinit

/-- With both fanin cut sets present the engine takes the constrained path,
not the fallback. -/
theorem If_ObjPerformMappingAnd_eq_body (ext : IfExt) (p : IfMan) (ctx0 : IfNodeCtx)
    (Mode : Int) (fPre fFirst : Bool)
    (h0 : ctx0.fanin0.cutSet ≠ none) (h1 : ctx0.fanin1.cutSet ≠ none) :
    If_ObjPerformMappingAndPartitionAware ext p ctx0 Mode fPre fFirst
      = If_MapAndBody ext p (If_MapAndStage2 ext (If_MapAndStage1 ctx0 Mode) Mode)
          Mode fPre fFirst := by
  have hcond : ¬ (¬ fFirst = true ∧
      ((If_MapAndStage2 ext (If_MapAndStage1 ctx0 Mode) Mode).fanin0.cutSet = none ∨
       (If_MapAndStage2 ext (If_MapAndStage1 ctx0 Mode) Mode).fanin1.cutSet = none)) := by
    rintro ⟨-, hc | hc⟩
    · exact h0 ((prologue_fanin_fields ext ctx0 Mode).2.2.1 ▸ hc)
    · exact h1 ((prologue_fanin_fields ext ctx0 Mode).2.2.2.2.2.1 ▸ hc)
  unfold If_ObjPerformMappingAndPartitionAware
  rw [if_neg hcond]

/-- Core of C1: when every cut the loop kept is the node's saved best cut,
the final set contains a cut whose sole leaf is the node itself. -/
theorem If_MapAndCuts3_has_trivial (ext : IfExt) (p : IfMan) (obj3 : IfObj)
    (loopCuts : List IfCut) (fPre : Bool)
    (hskip : obj3.fSkipCut = false)
    (hall : ∀ x ∈ loopCuts, x = obj3.cutBest)
    (hb : obj3.cutBest.leaves.length ≤ 1 → obj3.cutBest.leaves = [obj3.objId]) :
    ∃ c ∈ If_MapAndCuts3 ext p obj3 loopCuts fPre, c.leaves = [obj3.objId] := by
  by_cases hnil : loopCuts = []
  · refine ⟨ext.setupCutTriv obj3.objId, ?_, ext.setupCutTriv_leaves _⟩
    have h2 : ext.setupCutTriv obj3.objId ∈ If_MapAndCuts2 ext obj3 loopCuts := by
      unfold If_MapAndCuts2
      rw [if_pos hnil]
      simp
    unfold If_MapAndCuts3
    split_ifs
    · exact List.mem_append_left _ h2
    · exact h2
  · have hc2 : If_MapAndCuts2 ext obj3 loopCuts = loopCuts := by
      unfold If_MapAndCuts2; rw [if_neg hnil]
    have hmemc2 : obj3.cutBest ∈ If_MapAndCuts2 ext obj3 loopCuts := by
      rw [hc2]
      have hmem := headI_mem hnil
      rw [hall _ hmem] at hmem
      exact hmem
    by_cases hlen : obj3.cutBest.leaves.length ≤ 1
    · refine ⟨obj3.cutBest, ?_, hb hlen⟩
      unfold If_MapAndCuts3
      split_ifs
      · exact List.mem_append_left _ hmemc2
      · exact hmemc2
    · have hhead : (If_MapAndCuts2 ext obj3 loopCuts).headI = obj3.cutBest := by
        rw [hc2]; exact hall _ (headI_mem hnil)
      have hbest4 : (If_MapAndObj4 ext p obj3 loopCuts fPre).cutBest = obj3.cutBest := by
        rcases (If_MapAndObj4_fields ext p obj3 loopCuts fPre).2.2 with h | h
        · rw [h, hhead]
        · exact h
      have hskip4 : (If_MapAndObj4 ext p obj3 loopCuts fPre).fSkipCut = false := by
        rw [(If_MapAndObj4_fields ext p obj3 loopCuts fPre).2.1, hskip]
      refine ⟨ext.setupCutTriv (If_MapAndObj4 ext p obj3 loopCuts fPre).objId, ?_, ?_⟩
      · unfold If_MapAndCuts3
        rw [if_pos ⟨hskip4, by rw [hbest4]; omega⟩]
        exact List.mem_append_right _ (by simp)
      · rw [ext.setupCutTriv_leaves, (If_MapAndObj4_fields ext p obj3 loopCuts fPre).1]

/-- Locality of a cut only depends on its leaves. -/
theorem cutLocal_of_leaves_eq (p : IfMan) (t : Int) {c c' : IfCut}
    (h : c.leaves = c'.leaves) (hc : cutLocal p t c) : cutLocal p t c' := by
  unfold cutLocal at hc ⊢
  rw [← h]
  exact hc

/-- `If_ObjPartition` is the leaf-partition lookup at the object's own id. -/
theorem If_ObjPartition_eq_leafPartitionOf (p : IfMan) (o : IfObj) :
    If_ObjPartition p o = leafPartitionOf p o.objId := rfl

/-- C1.  For every 2-input AND node processed by the partition-constrained cut
engine (with its fanin cut sets initialized, with the node not marked
`fSkipCut`, and with the mapper invariant that a best cut with at most one
leaf is the node's own trivial cut), the cut set after processing is
non-empty, and if zero merged candidate cuts were accepted over all fanin-cut
pairs then it contains a (synthesized or retained) trivial cut whose sole leaf
is the node's own id. -/
theorem c1_trivial_cut_guarantee (ext : IfExt) (p : IfMan) (ctx0 : IfNodeCtx)
    (Mode : Int) (fPreprocess fFirst : Bool)
    (h0 : ctx0.fanin0.cutSet ≠ none) (h1 : ctx0.fanin1.cutSet ≠ none)
    (hskip : ctx0.obj.fSkipCut = false)
    (hbest : ctx0.obj.cutBest.leaves.length ≤ 1 →
      ctx0.obj.cutBest.leaves = [ctx0.obj.objId]) :
    ((If_ObjPerformMappingAndPartitionAware ext p ctx0 Mode fPreprocess
        fFirst).ctx.obj.cutSet.getD [] ≠ []) ∧
    ((If_ObjPerformMappingAndPartitionAware ext p ctx0 Mode fPreprocess fFirst).nAccepted = 0 →
      ∃ c ∈ (If_ObjPerformMappingAndPartitionAware ext p ctx0 Mode fPreprocess
          fFirst).ctx.obj.cutSet.getD [],
        c.leaves = [ctx0.obj.objId]) := by
  rw [If_ObjPerformMappingAnd_eq_body ext p ctx0 Mode fPreprocess fFirst h0 h1]
  obtain ⟨hset, hbestp, hacc, -, -⟩ :=
    If_MapAndBody_proj ext p (If_MapAndStage2 ext (If_MapAndStage1 ctx0 Mode) Mode)
      Mode fPreprocess fFirst
  rw [hset, hacc, Option.getD_some]
  have hobj := prologue_obj_fields ext p ctx0 Mode
  have hsave := If_MapAndSaveBest_spec ext
    (If_MapAndFaninInit p (If_MapAndStage2 ext (If_MapAndStage1 ctx0 Mode) Mode)).obj
    fPreprocess fFirst
  constructor
  · exact If_MapAndCuts3_ne_nil ext p _ _ fPreprocess
  · intro hacc0
    have hsub := If_MapAndLoop_acc ext p
      (If_MapAndStage2 ext (If_MapAndStage1 ctx0 Mode) Mode) fPreprocess fFirst hacc0
    have hall : ∀ x ∈ (If_MapAndLoop ext p
        (If_MapAndStage2 ext (If_MapAndStage1 ctx0 Mode) Mode) fPreprocess fFirst).cuts,
        x = (If_MapAndSaveBest ext
          (If_MapAndFaninInit p (If_MapAndStage2 ext (If_MapAndStage1 ctx0 Mode) Mode)).obj
          fPreprocess fFirst).1.cutBest :=
      fun x hx => hsave.2.2.2 x (hsub x hx)
    have hid3 : (If_MapAndSaveBest ext
        (If_MapAndFaninInit p (If_MapAndStage2 ext (If_MapAndStage1 ctx0 Mode) Mode)).obj
        fPreprocess fFirst).1.objId = ctx0.obj.objId := by
      rw [hsave.1, hobj.1]
    have hb3 : (If_MapAndSaveBest ext
        (If_MapAndFaninInit p (If_MapAndStage2 ext (If_MapAndStage1 ctx0 Mode) Mode)).obj
        fPreprocess fFirst).1.cutBest.leaves.length ≤ 1 →
        (If_MapAndSaveBest ext
          (If_MapAndFaninInit p (If_MapAndStage2 ext (If_MapAndStage1 ctx0 Mode) Mode)).obj
          fPreprocess fFirst).1.cutBest.leaves
          = [(If_MapAndSaveBest ext
              (If_MapAndFaninInit p (If_MapAndStage2 ext (If_MapAndStage1 ctx0 Mode) Mode)).obj
              fPreprocess fFirst).1.objId] := by
      rw [hsave.2.2.1, hobj.2.1, hid3]
      exact hbest
    have hskip3 : (If_MapAndSaveBest ext
        (If_MapAndFaninInit p (If_MapAndStage2 ext (If_MapAndStage1 ctx0 Mode) Mode)).obj
        fPreprocess fFirst).1.fSkipCut = false := by
      rw [hsave.2.1, hobj.2.2, hskip]
    obtain ⟨c, hc, hcl⟩ := If_MapAndCuts3_has_trivial ext p _ _ fPreprocess hskip3 hall hb3
    exact ⟨c, hc, by rw [hcl, hid3]⟩

/-- C2 (amended).  With a partition vector attached and a non-negative node
partition, and assuming additionally that the node's incoming best cut already
satisfies the locality predicate (the engine re-saves it into the cut set
without re-checking it and may retain it while preprocessing), every leaf of
the selected best cut after processing satisfies the locality predicate. -/
theorem c2_best_cut_locality (ext : IfExt) (p : IfMan) (ctx0 : IfNodeCtx)
    (Mode : Int) (fPreprocess fFirst : Bool) (v : List Int)
    (hv : p.vPartition = some v)
    (ht : 0 ≤ If_ObjPartition p ctx0.obj)
    (h0 : ctx0.fanin0.cutSet ≠ none) (h1 : ctx0.fanin1.cutSet ≠ none)
    (hbest : cutLocal p (If_ObjPartition p ctx0.obj) ctx0.obj.cutBest) :
    cutLocal p (If_ObjPartition p ctx0.obj)
      (If_ObjPerformMappingAndPartitionAware ext p ctx0 Mode fPreprocess
        fFirst).ctx.obj.cutBest := by
  rw [If_ObjPerformMappingAnd_eq_body ext p ctx0 Mode fPreprocess fFirst h0 h1]
  obtain ⟨-, hbestp, -, -, -⟩ :=
    If_MapAndBody_proj ext p (If_MapAndStage2 ext (If_MapAndStage1 ctx0 Mode) Mode)
      Mode fPreprocess fFirst
  rw [hbestp]
  have hobj := prologue_obj_fields ext p ctx0 Mode
  have hfan := prologue_fanin_fields ext ctx0 Mode
  have hsave := If_MapAndSaveBest_spec ext
    (If_MapAndFaninInit p (If_MapAndStage2 ext (If_MapAndStage1 ctx0 Mode) Mode)).obj
    fPreprocess fFirst
  -- the target partition read by the loop equals the one read at the incoming node
  have htgt : If_ObjPartition p (If_MapAndStage2 ext (If_MapAndStage1 ctx0 Mode) Mode).obj
      = If_ObjPartition p ctx0.obj :=
    If_ObjPartition_congr p _ _ hfan.2.2.2.2.2.2
  -- locality of the (recomputed) saved best cut
  have hbest3 : cutLocal p (If_ObjPartition p ctx0.obj)
      (If_MapAndSaveBest ext
        (If_MapAndFaninInit p (If_MapAndStage2 ext (If_MapAndStage1 ctx0 Mode) Mode)).obj
        fPreprocess fFirst).1.cutBest := by
    refine cutLocal_of_leaves_eq p _ ?_ hbest
    rw [hsave.2.2.1, hobj.2.1]
  -- every cut kept by the loop is local
  have hloop : ∀ x ∈ (If_MapAndLoop ext p
      (If_MapAndStage2 ext (If_MapAndStage1 ctx0 Mode) Mode) fPreprocess fFirst).cuts,
      cutLocal p (If_ObjPartition p ctx0.obj) x := by
    have := If_MapAndLoop_local ext p
      (If_MapAndStage2 ext (If_MapAndStage1 ctx0 Mode) Mode) fPreprocess fFirst v hv
      (htgt ▸ ht)
      (fun x hx => by
        rw [hsave.2.2.2 x hx, htgt]
        exact hbest3)
    intro x hx
    have hx' := this x hx
    rw [htgt] at hx'
    exact hx'
  -- locality of the trivial cut of the node itself
  have htriv : cutLocal p (If_ObjPartition p ctx0.obj)
      (ext.setupCutTriv (If_MapAndSaveBest ext
        (If_MapAndFaninInit p (If_MapAndStage2 ext (If_MapAndStage1 ctx0 Mode) Mode)).obj
        fPreprocess fFirst).1.objId) := by
    unfold cutLocal
    rw [ext.setupCutTriv_leaves, hsave.1, hobj.1]
    intro l hl
    rcases List.mem_singleton.mp hl with rfl
    left
    rw [← If_ObjPartition_eq_leafPartitionOf]
  -- every cut of the post-fallback set is local
  have hcuts2 : ∀ x ∈ If_MapAndCuts2 ext
      (If_MapAndSaveBest ext
        (If_MapAndFaninInit p (If_MapAndStage2 ext (If_MapAndStage1 ctx0 Mode) Mode)).obj
        fPreprocess fFirst).1
      (If_MapAndLoop ext p (If_MapAndStage2 ext (If_MapAndStage1 ctx0 Mode) Mode)
        fPreprocess fFirst).cuts,
      cutLocal p (If_ObjPartition p ctx0.obj) x := by
    intro x hx
    rcases If_MapAndCuts2_mem _ _ _ x hx with hx' | rfl
    · exact hloop x hx'
    · exact htriv
  -- conclude: the final best cut is the head of that set or the saved best
  rcases (If_MapAndObj4_fields ext p
      (If_MapAndSaveBest ext
        (If_MapAndFaninInit p (If_MapAndStage2 ext (If_MapAndStage1 ctx0 Mode) Mode)).obj
        fPreprocess fFirst).1
      (If_MapAndLoop ext p (If_MapAndStage2 ext (If_MapAndStage1 ctx0 Mode) Mode)
        fPreprocess fFirst).cuts fPreprocess).2.2 with h | h
  · rw [h]
    exact hcuts2 _ (headI_mem (If_MapAndCuts2_ne_nil _ _ _))
  · rw [h]
    exact hbest3

/-- A concrete admissible environment (used by witnesses and
counterexamples): merging always fails, filtering keeps the set, sorting
prepends, delays and areas are zero, the trivial cut is the bare singleton,
and the area/ref helpers change nothing. -/
def extId : IfExt where
  cutMergeOrdered := fun _ _ => none
  cutFilter := fun s _ => some s
  cutComputeTruth := fun _ _ _ _ _ => true
  cutDelay := fun _ _ => 0
  cutAreaFlow := fun _ => 0
  setupCutTriv := fun i => ⟨[i], 0, 0, 0⟩
  cutSort := fun s c => c :: s
  areaDerefRefs := fun _ t => (t.obj.nRefs, t.fanin0.nRefs, t.fanin1.nRefs)
  areaRefRefs := fun _ t => (t.obj.nRefs, t.fanin0.nRefs, t.fanin1.nRefs)
  derefNodeCutSets := fun t => (t.fanin0.cutSet, t.fanin1.cutSet)
  standardMapping := fun t _ _ _ => t
  cutFilter_subset := by
    intro s c s' h x hx
    cases h
    exact hx
  cutSort_subset := by
    intro s c x hx
    simpa using hx
  setupCutTriv_leaves := fun _ => rfl

/-- Manager with the partition vector `[0, 1]`, two partitions and empty
boundary sets. -/
def manA : IfMan := ⟨some [0, 1], 2, some [[], []], some [[], []], 0, 6, false, false⟩

/-- Node 0 whose current best cut has the cross-partition leaf 1. -/
def objA : IfObj := ⟨0, 0, 0, 0, false, false, false, ⟨[1], 0, 0, 0⟩, some []⟩

/-- A fanin with an initialized (empty) cut set. -/
def fanA0 : IfObj := ⟨2, 0, 0, 0, false, false, false, ⟨[2], 0, 0, 0⟩, some []⟩

/-- The other fanin with an initialized (empty) cut set. -/
def fanA1 : IfObj := ⟨3, 0, 0, 0, false, false, false, ⟨[3], 0, 0, 0⟩, some []⟩

/-- Node context for the C2 counterexample. -/
def ctxA : IfNodeCtx := ⟨objA, fanA0, fanA1⟩

/-- C2 (counterexample to the claim as stated).  A node of partition 0 whose
incoming best cut has a leaf in partition 1 (not a recorded partition input):
on a non-first invocation with no accepted merged cut, the engine re-saves
that stale best cut and re-selects it, so the selected best cut after
processing violates the locality predicate even though the partition vector
is attached and the node's partition is non-negative. -/
theorem c2_counterexample :
    manA.vPartition = some [0, 1] ∧
    If_ObjPartition manA ctxA.obj = 0 ∧
    ctxA.fanin0.cutSet ≠ none ∧ ctxA.fanin1.cutSet ≠ none ∧
    ¬ cutLocal manA (If_ObjPartition manA ctxA.obj)
      (If_ObjPerformMappingAndPartitionAware extId manA ctxA 0 false
        false).ctx.obj.cutBest := by
  refine ⟨rfl, by decide, by decide, by decide, ?_⟩
  decide

/-- Node 0 whose current best cut is local (leaf 2 sits in partition 0). -/
def objB : IfObj := ⟨0, 0, 0, 0, false, false, false, ⟨[2], 0, 0, 0⟩, some []⟩

/-- Manager with the partition vector `[0, 1, 0]`. -/
def manB : IfMan := ⟨some [0, 1, 0], 2, some [[], []], some [[], []], 0, 6, false, false⟩

/-- Node context for the C2 witness. -/
def ctxB : IfNodeCtx := ⟨objB, fanA0, fanA1⟩

/-- C2 (witness).  The amended locality preservation applied at a concrete
input with a local incoming best cut. -/
theorem c2_best_cut_locality_witness :
    manB.vPartition = some [0, 1, 0] ∧
    0 ≤ If_ObjPartition manB ctxB.obj ∧
    ctxB.fanin0.cutSet ≠ none ∧ ctxB.fanin1.cutSet ≠ none ∧
    cutLocal manB (If_ObjPartition manB ctxB.obj) ctxB.obj.cutBest ∧
    cutLocal manB (If_ObjPartition manB ctxB.obj)
      (If_ObjPerformMappingAndPartitionAware extId manB ctxB 0 false
        false).ctx.obj.cutBest :=
  ⟨rfl, by decide, by decide, by decide, by decide,
    c2_best_cut_locality extId manB ctxB 0 false false [0, 1, 0] rfl (by decide)
      (by decide) (by decide) (by decide)⟩

/-- Node 0 whose current best cut has the two leaves 2 and 3. -/
def objC : IfObj := ⟨0, 0, 0, 0, false, false, false, ⟨[2, 3], 0, 0, 0⟩, some []⟩

/-- Node context for the C1 witness. -/
def ctxC : IfNodeCtx := ⟨objC, fanA0, fanA1⟩

/-- C1 (witness).  The trivial-cut guarantee applied at a concrete first-pass
input whose merge loop accepts nothing: the resulting cut set is non-empty
and contains the trivial cut of the node. -/
theorem c1_trivial_cut_guarantee_witness :
    ctxC.fanin0.cutSet ≠ none ∧ ctxC.fanin1.cutSet ≠ none ∧
    ctxC.obj.fSkipCut = false ∧
    (ctxC.obj.cutBest.leaves.length ≤ 1 → ctxC.obj.cutBest.leaves = [ctxC.obj.objId]) ∧
    (((If_ObjPerformMappingAndPartitionAware extId manB ctxC 0 false
        true).ctx.obj.cutSet.getD [] ≠ []) ∧
      ((If_ObjPerformMappingAndPartitionAware extId manB ctxC 0 false true).nAccepted = 0 →
        ∃ c ∈ (If_ObjPerformMappingAndPartitionAware extId manB ctxC 0 false
            true).ctx.obj.cutSet.getD [],
          c.leaves = [ctxC.obj.objId])) :=
  ⟨by decide, by decide, by decide, by decide,
    c1_trivial_cut_guarantee extId manB ctxC 0 false true (by decide) (by decide)
      (by decide) (by decide)⟩

/-- C3.  With a partition vector attached and a non-negative target
partition, a structurally merged candidate cut is accepted by
`If_CutCheckPartition` exactly when every leaf satisfies the locality
predicate (same partition, recorded partition input, or `-1`); and a merged
cut failing the check is discarded immediately: the merge-loop step leaves
the loop state untouched (in particular no delay or area is computed for it
and `nCutsMerged` is not incremented), for every environment whose merge
produces that cut — so the outcome is independent of the delay/area
routines. -/
theorem c3_partition_filter (p : IfMan) (v : List Int) (t : Int) (c : IfCut)
    (hv : p.vPartition = some v) (ht : 0 ≤ t) :
    (If_CutCheckPartition p c t = true ↔ cutLocal p t c) ∧
    (∀ (ext : IfExt) (obj : IfObj) (st : IfLoopState) (c0 c1 : IfCut),
      ext.cutMergeOrdered c0 c1 = some c →
      If_CutCheckPartition p c t = false →
      If_ObjMergeStep ext p obj t st c0 c1 = st) := by
  refine ⟨If_CutCheckPartition_iff_cutLocal p v t c hv ht, ?_⟩
  intro ext obj st c0 c1 hmerge hcheck
  unfold If_ObjMergeStep
  by_cases hfeas : If_WordCountOnes (c0.uSign ||| c1.uSign) > p.nLutSize
  · rw [if_pos hfeas]
  · rw [if_neg hfeas, hmerge]
    dsimp only
    rw [if_pos ⟨by simp [hv], ht, hcheck⟩]

/-- Environment whose merge always produces the cross-partition cut `[1]`. -/
def extMergeA : IfExt :=
  { extId with cutMergeOrdered := fun _ _ => some ⟨[1], 0, 0, 0⟩ }

/-- An arbitrary loop state used in the C3 witness. -/
def stA : IfLoopState := ⟨[⟨[0], 0, 0, 0⟩], 3, 2⟩

/-- C3 (witness).  The filter equivalence and the discard property applied at
a concrete rejected cut: the merged cut `[1]` is not local to partition 0 and
the loop state is unchanged. -/
theorem c3_partition_filter_witness :
    manA.vPartition = some [0, 1] ∧ (0 : Int) ≤ 0 ∧
    If_CutCheckPartition manA ⟨[1], 0, 0, 0⟩ 0 = false ∧
    ¬ cutLocal manA 0 ⟨[1], 0, 0, 0⟩ ∧
    If_ObjMergeStep extMergeA manA objA 0 stA ⟨[2], 0, 0, 0⟩ ⟨[3], 0, 0, 0⟩ = stA :=
  ⟨rfl, by decide, by decide, by decide,
    (c3_partition_filter manA [0, 1] 0 ⟨[1], 0, 0, 0⟩ rfl (by decide)).2 extMergeA objA stA
      ⟨[2], 0, 0, 0⟩ ⟨[3], 0, 0, 0⟩ rfl (by decide)⟩

/-- C10.  With a partition vector attached and a non-negative target
partition, `If_CutCheckPartition` accepts a cut exactly when all of its
in-range leaves satisfy the locality test: leaves whose id is at least the
vector's length are silently skipped and never cause a rejection. -/
theorem c10_out_of_range_leaves (p : IfMan) (v : List Int) (t : Int) (c : IfCut)
    (hv : p.vPartition = some v) (ht : 0 ≤ t) :
    If_CutCheckPartition p c t = true ↔
      ∀ l ∈ c.leaves, l < v.length →
        (v.getD l (-1) = t ∨ If_ObjIsPartitionInput p l t = true ∨ v.getD l (-1) = -1) := by
  rw [If_CutCheckPartition_iff_cutLocal p v t c hv ht]
  unfold cutLocal
  constructor
  · intro h l hl hrange
    have hLP : leafPartitionOf p l = v.getD l (-1) := by
      unfold leafPartitionOf
      rw [hv]
      dsimp only
      rw [if_neg (not_le.mpr hrange)]
    rcases h l hl with hx | hx | hx
    · exact Or.inl (hLP ▸ hx)
    · exact Or.inr (Or.inl hx)
    · exact Or.inr (Or.inr (hLP ▸ hx))
  · intro h l hl
    by_cases hrange : l < v.length
    · have hLP : leafPartitionOf p l = v.getD l (-1) := by
        unfold leafPartitionOf
        rw [hv]
        dsimp only
        rw [if_neg (not_le.mpr hrange)]
      rcases h l hl hrange with hx | hx | hx
      · exact Or.inl (hLP ▸ hx.symm).symm
      · exact Or.inr (Or.inl hx)
      · exact Or.inr (Or.inr (hLP ▸ hx.symm).symm)
    · refine Or.inr (Or.inr ?_)
      unfold leafPartitionOf
      rw [hv]
      dsimp only
      rw [if_pos (not_lt.mp hrange)]

/-- C10 (witness).  The equivalence applied to a cut whose only leaf id 9 is
out of the attached vector's range: the cut is accepted. -/
theorem c10_out_of_range_leaves_witness :
    manA.vPartition = some [0, 1] ∧ (0 : Int) ≤ 0 ∧
    If_CutCheckPartition manA ⟨[9], 0, 0, 0⟩ 0 = true :=
  ⟨rfl, by decide,
    (c10_out_of_range_leaves manA [0, 1] 0 ⟨[9], 0, 0, 0⟩ rfl (by decide)).mpr
      (by decide)⟩

/-- The lazy fanin initialization as an explicit formula. -/
theorem If_MapAndFaninInit_estRefs (p : IfMan) (ctx : IfNodeCtx) :
    ((If_MapAndFaninInit p ctx).fanin0.estRefs =
      if (If_ObjPartition p ctx.fanin0 ≠ If_ObjPartition p ctx.obj ∧
          0 ≤ If_ObjPartition p ctx.fanin0 ∧ 0 ≤ If_ObjPartition p ctx.obj) ∧
          ctx.fanin0.estRefs ≤ p.fEpsilon
      then (if ctx.fanin0.nRefs > 0 then (ctx.fanin0.nRefs : Rat) else 1)
      else ctx.fanin0.estRefs) ∧
    ((If_MapAndFaninInit p ctx).fanin1.estRefs =
      if (If_ObjPartition p ctx.fanin1 ≠ If_ObjPartition p ctx.obj ∧
          0 ≤ If_ObjPartition p ctx.fanin1 ∧ 0 ≤ If_ObjPartition p ctx.obj) ∧
          ctx.fanin1.estRefs ≤ p.fEpsilon
      then (if ctx.fanin1.nRefs > 0 then (ctx.fanin1.nRefs : Rat) else 1)
      else ctx.fanin1.estRefs) := by
  unfold If_MapAndFaninInit
  constructor <;> (dsimp only) <;> split_ifs <;> rfl

/-- C9 (amended).  On the constrained path, the estimated-reference count of
each fanin after processing obeys the code's lazy initialization: it is set
exactly when the fanin is cross-partition (fanin and node partitions both
non-negative and different, which requires an attached partition vector) and
its estimated references were at most epsilon, and the value written is the
fanin's raw reference count as of the initialization point (after the
mode-dependent dereference) when that count is positive, and 1 otherwise;
in every other case it is left unchanged. -/
theorem c9_estrefs_lazy_init (ext : IfExt) (p : IfMan) (ctx0 : IfNodeCtx)
    (Mode : Int) (fPreprocess fFirst : Bool)
    (h0 : ctx0.fanin0.cutSet ≠ none) (h1 : ctx0.fanin1.cutSet ≠ none) :
    ((If_ObjPerformMappingAndPartitionAware ext p ctx0 Mode fPreprocess
        fFirst).ctx.fanin0.estRefs =
      if (If_ObjPartition p ctx0.fanin0 ≠ If_ObjPartition p ctx0.obj ∧
          0 ≤ If_ObjPartition p ctx0.fanin0 ∧ 0 ≤ If_ObjPartition p ctx0.obj) ∧
          ctx0.fanin0.estRefs ≤ p.fEpsilon
      then (if (If_MapAndStage2 ext (If_MapAndStage1 ctx0 Mode) Mode).fanin0.nRefs > 0
            then ((If_MapAndStage2 ext (If_MapAndStage1 ctx0 Mode) Mode).fanin0.nRefs : Rat)
            else 1)
      else ctx0.fanin0.estRefs) ∧
    ((If_ObjPerformMappingAndPartitionAware ext p ctx0 Mode fPreprocess
        fFirst).ctx.fanin1.estRefs =
      if (If_ObjPartition p ctx0.fanin1 ≠ If_ObjPartition p ctx0.obj ∧
          0 ≤ If_ObjPartition p ctx0.fanin1 ∧ 0 ≤ If_ObjPartition p ctx0.obj) ∧
          ctx0.fanin1.estRefs ≤ p.fEpsilon
      then (if (If_MapAndStage2 ext (If_MapAndStage1 ctx0 Mode) Mode).fanin1.nRefs > 0
            then ((If_MapAndStage2 ext (If_MapAndStage1 ctx0 Mode) Mode).fanin1.nRefs : Rat)
            else 1)
      else ctx0.fanin1.estRefs) := by
  rw [If_ObjPerformMappingAnd_eq_body ext p ctx0 Mode fPreprocess fFirst h0 h1]
  obtain ⟨-, -, -, hf0, hf1⟩ :=
    If_MapAndBody_proj ext p (If_MapAndStage2 ext (If_MapAndStage1 ctx0 Mode) Mode)
      Mode fPreprocess fFirst
  rw [hf0, hf1]
  obtain ⟨he0, he1⟩ :=
    If_MapAndFaninInit_estRefs p (If_MapAndStage2 ext (If_MapAndStage1 ctx0 Mode) Mode)
  rw [he0, he1]
  have hfan := prologue_fanin_fields ext ctx0 Mode
  have hp0 : If_ObjPartition p (If_MapAndStage2 ext (If_MapAndStage1 ctx0 Mode) Mode).fanin0
      = If_ObjPartition p ctx0.fanin0 := If_ObjPartition_congr p _ _ hfan.2.1
  have hp1 : If_ObjPartition p (If_MapAndStage2 ext (If_MapAndStage1 ctx0 Mode) Mode).fanin1
      = If_ObjPartition p ctx0.fanin1 := If_ObjPartition_congr p _ _ hfan.2.2.2.2.1
  have hpo : If_ObjPartition p (If_MapAndStage2 ext (If_MapAndStage1 ctx0 Mode) Mode).obj
      = If_ObjPartition p ctx0.obj := If_ObjPartition_congr p _ _ hfan.2.2.2.2.2.2
  rw [hp0, hp1, hpo, hfan.1, hfan.2.2.2.1]
  exact ⟨rfl, rfl⟩

/-- Manager whose partition vector puts ids 0 and 1 in the same partition 0. -/
def manC9 : IfMan := ⟨some [0, 0], 2, some [[], []], some [[], []], 0, 6, false, false⟩

/-- Fanin 1 with estimated references 0 (at most epsilon) and 5 raw
references. -/
def fanC9 : IfObj := ⟨1, 5, 0, 0, false, false, false, ⟨[1], 0, 0, 0⟩, some []⟩

/-- Node context for the C9 counterexample: node 0 and fanin 1 share
partition 0. -/
def ctxC9 : IfNodeCtx := ⟨⟨0, 1, 1, 0, false, false, false, ⟨[0], 0, 0, 0⟩, some []⟩,
  fanC9, fanC9⟩

/-- C9 (counterexample to the claim as stated).  A same-partition fanin whose
estimated-reference count is not yet meaningfully nonzero (0 ≤ epsilon) and
whose raw reference count is 5 is processed without any initialization: the
code initializes a fanin's estimated references only when the fanin is
cross-partition, so after processing the count is still 0, not the raw
reference count. -/
theorem c9_counterexample :
    ctxC9.fanin0.estRefs ≤ manC9.fEpsilon ∧
    ctxC9.fanin0.nRefs = 5 ∧
    (If_ObjPerformMappingAndPartitionAware extId manC9 ctxC9 0 false
        true).ctx.fanin0.estRefs = 0 ∧
    (If_ObjPerformMappingAndPartitionAware extId manC9 ctxC9 0 false
        true).ctx.fanin0.estRefs ≠ (ctxC9.fanin0.nRefs : Rat) := by
  refine ⟨by decide, by decide, by decide, by decide⟩

/-- Manager whose partition vector separates id 0 (partition 0) from id 1
(partition 1). -/
def manC9b : IfMan := ⟨some [0, 1], 2, some [[], []], some [[], []], 0, 6, false, false⟩

/-- C9 (witness).  The amended lazy initialization applied at a concrete
input with a cross-partition fanin: its estimated references become its raw
reference count 5. -/
theorem c9_estrefs_lazy_init_witness :
    ctxC9.fanin0.cutSet ≠ none ∧ ctxC9.fanin1.cutSet ≠ none ∧
    ((If_ObjPerformMappingAndPartitionAware extId manC9b ctxC9 0 false
        true).ctx.fanin0.estRefs =
      if (If_ObjPartition manC9b ctxC9.fanin0 ≠ If_ObjPartition manC9b ctxC9.obj ∧
          0 ≤ If_ObjPartition manC9b ctxC9.fanin0 ∧ 0 ≤ If_ObjPartition manC9b ctxC9.obj) ∧
          ctxC9.fanin0.estRefs ≤ manC9b.fEpsilon
      then (if (If_MapAndStage2 extId (If_MapAndStage1 ctxC9 0) 0).fanin0.nRefs > 0
            then ((If_MapAndStage2 extId (If_MapAndStage1 ctxC9 0) 0).fanin0.nRefs : Rat)
            else 1)
      else ctxC9.fanin0.estRefs) ∧
    (If_ObjPerformMappingAndPartitionAware extId manC9b ctxC9 0 false
        true).ctx.fanin0.estRefs = (5 : Rat) :=
  ⟨by decide, by decide,
    (c9_estrefs_lazy_init extId manC9b ctxC9 0 false true (by decide) (by decide)).1,
    by decide⟩

/-! ## Timing-criticality estimator (abcHyperTiming.c lines 44-110)

The C routine computes in `float`; the embedding computes in `Rat`.  Every
constant involved (1.5, 1.2, 1.1, the small integer levels) is exactly
representable, and the counterexample below only uses values on which float
and rational arithmetic agree exactly.  The C cast `(int)` truncates toward
zero; the criticality is never negative, so it equals the floor. -/

/-- Criticality before scaling (lines 51-66): level ratio times the fanout
bonus. -/
def Aig_CriticalityRaw (level fanoutCount maxLevel : Nat) : Rat :=
  if fanoutCount > 10 then ((level : Rat) / (maxLevel : Rat)) * (15 / 10)
  else if fanoutCount > 5 then ((level : Rat) / (maxLevel : Rat)) * (12 / 10)
  else if fanoutCount > 2 then ((level : Rat) / (maxLevel : Rat)) * (11 / 10)
  else (level : Rat) / (maxLevel : Rat)

/-- Lines 69-73: scale to 1-10 and clamp, first from above then from below. -/
def Aig_ClampWeight (w : Int) : Int :=
  if (if w > 10 then 10 else w) < 1 then 1 else (if w > 10 then 10 else w)

/-- `Aig_ComputeNodeCriticality` (abcHyperTiming.c lines 44-76), with
`level = Abc_ObjLevel(pObj)` and `fanoutCount = Abc_ObjFanoutNum(pObj)`. -/
def Aig_ComputeNodeCriticality (level fanoutCount maxLevel : Nat) : Int :=
  Aig_ClampWeight (⌊Aig_CriticalityRaw level fanoutCount maxLevel * 9⌋ + 1)

/-- Modelled from the spec (for comparison only): the vertex-weight formula
exactly as the specification words it, with `round` (round half up) instead
of the code's truncation. -/
def criticalitySpecWeight (level fanoutCount maxLevel : Nat) : Int :=
  max 1 (min 10
    (round (((level : Rat) / (maxLevel : Rat)) *
      (if fanoutCount > 10 then (15 / 10 : Rat)
       else if fanoutCount > 5 then (12 / 10 : Rat)
       else if fanoutCount > 2 then (11 / 10 : Rat) else 1) * 9) + 1))

/-- The double clamp of the code is the `max`/`min` clamp. -/
theorem Aig_ClampWeight_eq (w : Int) : Aig_ClampWeight w = max 1 (min 10 w) := by
  unfold Aig_ClampWeight
  split_ifs <;> omega

/-- The raw criticality is the level ratio times the fanout bonus. -/
theorem Aig_CriticalityRaw_eq (level fanoutCount maxLevel : Nat) :
    Aig_CriticalityRaw level fanoutCount maxLevel
      = ((level : Rat) / (maxLevel : Rat)) *
        (if fanoutCount > 10 then (15 / 10 : Rat)
         else if fanoutCount > 5 then (12 / 10 : Rat)
         else if fanoutCount > 2 then (11 / 10 : Rat) else 1) := by
  unfold Aig_CriticalityRaw
  split_ifs <;> ring

/-- The raw criticality is non-negative. -/
theorem Aig_CriticalityRaw_nonneg (level fanoutCount maxLevel : Nat) :
    0 ≤ Aig_CriticalityRaw level fanoutCount maxLevel := by
  unfold Aig_CriticalityRaw
  split_ifs <;> positivity

/-- C8 (counterexample to the claim as stated).  At level 3 of 4 with no
fanout bonus the scaled criticality is exactly 6.75 (exactly representable in
float, so float and rational arithmetic agree): the code truncates and
returns 7, while the claimed `round`-based formula gives 8. -/
theorem c8_counterexample :
    Aig_ComputeNodeCriticality 3 0 4 = 7 ∧
    criticalitySpecWeight 3 0 4 = 8 ∧
    Aig_ComputeNodeCriticality 3 0 4 ≠ criticalitySpecWeight 3 0 4 := by
  have h1 : Aig_ComputeNodeCriticality 3 0 4 = 7 := by
    unfold Aig_ComputeNodeCriticality Aig_CriticalityRaw Aig_ClampWeight
    norm_num
  have h2 : criticalitySpecWeight 3 0 4 = 8 := by
    unfold criticalitySpecWeight
    rw [round_eq]
    norm_num
  exact ⟨h1, h2, by rw [h1, h2]; decide⟩

/-- C8 (amended).  For every node, with the maximum level normalized to be
positive, the criticality estimator returns
`clamp(trunc(base * bonus * 9) + 1, 1, 10)` — truncation, not rounding — with
`base = level / maxLevel` and the spec's fanout bonus, and the returned
weight always lies in `[1, 10]`. -/
theorem c8_criticality_weight (level fanoutCount maxLevel : Nat) (_hL : 0 < maxLevel) :
    (Aig_ComputeNodeCriticality level fanoutCount maxLevel
      = max 1 (min 10
          (⌊((level : Rat) / (maxLevel : Rat)) *
            (if fanoutCount > 10 then (15 / 10 : Rat)
             else if fanoutCount > 5 then (12 / 10 : Rat)
             else if fanoutCount > 2 then (11 / 10 : Rat) else 1) * 9⌋ + 1))) ∧
    1 ≤ Aig_ComputeNodeCriticality level fanoutCount maxLevel ∧
    Aig_ComputeNodeCriticality level fanoutCount maxLevel ≤ 10 := by
  have heq : Aig_ComputeNodeCriticality level fanoutCount maxLevel
      = max 1 (min 10 (⌊Aig_CriticalityRaw level fanoutCount maxLevel * 9⌋ + 1)) := by
    unfold Aig_ComputeNodeCriticality
    rw [Aig_ClampWeight_eq]
  refine ⟨?_, ?_, ?_⟩
  · rw [heq, ← Aig_CriticalityRaw_eq]
  · rw [heq]; exact le_max_left _ _
  · rw [heq]
    have h9 : (0 : Rat) ≤ Aig_CriticalityRaw level fanoutCount maxLevel * 9 := by
      have := Aig_CriticalityRaw_nonneg level fanoutCount maxLevel
      positivity
    exact max_le (by norm_num) (le_trans (min_le_left _ _) (by norm_num))

/-- C8 (witness).  The amended formula applied at level 3 of maximum level 4
with no fanout bonus: the weight is 7 and lies in `[1, 10]`. -/
theorem c8_criticality_weight_witness :
    0 < 4 ∧
    Aig_ComputeNodeCriticality 3 0 4 = 7 ∧
    1 ≤ Aig_ComputeNodeCriticality 3 0 4 ∧
    Aig_ComputeNodeCriticality 3 0 4 ≤ 10 :=
  ⟨by decide,
    by unfold Aig_ComputeNodeCriticality Aig_CriticalityRaw Aig_ClampWeight; norm_num,
    (c8_criticality_weight 3 0 4 (by decide)).2.1,
    (c8_criticality_weight 3 0 4 (by decide)).2.2⟩

/-! ## AIG network model and hypergraph builder (abcHyperAig.c)

Objects carry exactly the predicates and neighbour snapshots the builders
read: `Abc_AigNodeIsConst`, `Abc_ObjIsPi/Po/Latch/Node`, `Abc_ObjLevel`,
`Abc_ObjFanout`/`Abc_ObjFanin` and the `pCopy` link into the IF manager
(used by `If_ManSetPartitionInfo`). -/

/-- Snapshot of a neighbour object (a fanout or fanin endpoint). -/
structure AbcFan where
  aId : Nat
  aIsNode : Bool
  aIsPo : Bool
  aIsConst : Bool
  aLevel : Nat
  afCopy : Nat
deriving DecidableEq

/-- An object of the AIG network. -/
structure AbcObj where
  aId : Nat
  aIsConst : Bool
  aIsPi : Bool
  aIsPo : Bool
  aIsLatch : Bool
  aIsNode : Bool
  aLevel : Nat
  aFanouts : List AbcFan
  aFanins : List AbcFan
  aCopy : Option Nat
deriving DecidableEq

/-- A (strashed) AIG network: objects in `Abc_NtkForEachObj` order and the
maximum object id bound `Abc_NtkObjNumMax`. -/
structure AbcNtk where
  objs : List AbcObj
  nObjNumMax : Nat
deriving DecidableEq

/-- Connection collection of the build loop (abcHyperAig.c lines 424-445):
for a non-PO object the AND/PO fanouts, for a non-latch PO its (non-constant)
first fanin. -/
def Abc_AigConnections (o : AbcObj) : List Nat :=
  if ¬ o.aIsPo then
    (o.aFanouts.filter (fun f => f.aIsNode || f.aIsPo)).map (fun f => f.aId)
  else if o.aIsPo ∧ ¬ o.aIsLatch then
    match o.aFanins.head? with
    | some f => if ¬ f.aIsConst then [f.aId] else []
    | none => []
  else []

/-- The AIG hypergraph (ifHyperAig.h): vertex bound, counters, hyperedges in
construction order (the builder appends each edge with `Vec_PtrPush` and
`Aig_HyperForEachEdge` walks entries `0 ≤ i < nHyperedges`), and the two
weight arrays. -/
structure AigHyper where
  nVertices : Nat
  nHyperedges : Nat
  nPins : Nat
  hyperedges : List (List Nat)
  edgeWeights : List Int
  vertexWeights : List Int
deriving DecidableEq

/-- `Aig_HyperAlloc` (lines 334-348) followed by the default vertex-weight
fill (lines 400-401). -/
def Aig_HyperAllocFilled (n : Nat) : AigHyper :=
  ⟨n, 0, 0, [], [], List.replicate n 1⟩

/-- One iteration of the build loop (abcHyperAig.c lines 408-469): skip
constants, collect connections, and if any exist append the hyperedge
`anchor :: connections` with weight 1 and update the counters. -/
def Aig_HyperAddObj (h : AigHyper) (o : AbcObj) : AigHyper :=
  if o.aIsConst then h
  else if (Abc_AigConnections o).length > 0 then
    { h with hyperedges := h.hyperedges ++ [o.aId :: Abc_AigConnections o],
             edgeWeights := h.edgeWeights ++ [1],
             nHyperedges := h.nHyperedges + 1,
             nPins := h.nPins + (o.aId :: Abc_AigConnections o).length }
  else h

/-- `Aig_NtkBuildHypergraph` (abcHyperAig.c lines 387-475). -/
def Aig_NtkBuildHypergraph (ntk : AbcNtk) : AigHyper :=
  ntk.objs.foldl Aig_HyperAddObj (Aig_HyperAllocFilled ntk.nObjNumMax)

/-- The hyperedge an object contributes, if any. -/
def Aig_EdgeOf (o : AbcObj) : Option (List Nat) :=
  if o.aIsConst then none
  else if (Abc_AigConnections o).length > 0 then some (o.aId :: Abc_AigConnections o)
  else none

/-- CSR export loop of `Aig_HyperExportForPartitioning` (abcHyperTiming.c
lines 537-571, the `Aig_HyperForEachEdge` loop): per edge, append its pins to
the flat pin list and push the running pin count onto the offset vector. -/
def Aig_HyperExportLoop (edges : List (List Nat)) (acc : List Nat × List Nat) :
    List Nat × List Nat :=
  edges.foldl (fun acc vEdge => (acc.1 ++ vEdge, acc.2 ++ [(acc.1 ++ vEdge).length])) acc

/-- `Aig_HyperExportForPartitioning` (abcHyperTiming.c lines 537-571): the
flat pin list, the offset vector seeded with 0, and a copy of the edge
weights. -/
def Aig_HyperExportForPartitioning (p : AigHyper) : List Nat × List Nat × List Int :=
  ((Aig_HyperExportLoop (p.hyperedges.take p.nHyperedges) ([], [0])).1,
   (Aig_HyperExportLoop (p.hyperedges.take p.nHyperedges) ([], [0])).2,
   p.edgeWeights)

/-- Modelled from the spec (reconstruction side of the round-trip claim):
slice the pin list at consecutive offsets. -/
def reconstructEdges (pins : List Nat) (indices : List Nat) : List (List Nat) :=
  (indices.zip indices.tail).map (fun ab => (pins.drop ab.1).take (ab.2 - ab.1))

/-- Running pin counts of a list of edges starting from `base`. -/
def csrOffsets (base : Nat) : List (List Nat) → List Nat
  | [] => []
  | e :: es => (base + e.length) :: csrOffsets (base + e.length) es

/-- The export loop produces the flattened pins and the running counts. -/
theorem Aig_HyperExportLoop_eq :
    ∀ (edges : List (List Nat)) (p0 i0 : List Nat),
      Aig_HyperExportLoop edges (p0, i0)
        = (p0 ++ edges.flatten, i0 ++ csrOffsets p0.length edges)
  | [], p0, i0 => by simp [Aig_HyperExportLoop, csrOffsets]
  | e :: es, p0, i0 => by
      have ih := Aig_HyperExportLoop_eq es (p0 ++ e) (i0 ++ [(p0 ++ e).length])
      unfold Aig_HyperExportLoop at ih ⊢
      rw [List.foldl_cons]
      rw [ih]
      simp [csrOffsets, List.append_assoc]

/-- Length of the running counts. -/
theorem csrOffsets_length (edges : List (List Nat)) :
    ∀ base, (csrOffsets base edges).length = edges.length := by
  induction edges with
  | nil => intro base; simp [csrOffsets]
  | cons e es ih => intro base; simp [csrOffsets, ih]

/-- The running counts are monotone from the base. -/
theorem csrOffsets_chain (edges : List (List Nat)) :
    ∀ base, List.Chain' (· ≤ ·) (base :: csrOffsets base edges) := by
  induction edges with
  | nil => intro base; simp [csrOffsets]
  | cons e es ih =>
      intro base
      unfold csrOffsets
      rw [List.chain'_cons]
      exact ⟨Nat.le_add_right _ _, ih (base + e.length)⟩

/-- Slicing the flattened pins at the running counts reproduces the edges. -/
theorem reconstructEdges_eq :
    ∀ (edges : List (List Nat)) (pre : List Nat),
      reconstructEdges (pre ++ edges.flatten) (pre.length :: csrOffsets pre.length edges)
        = edges
  | [], pre => by simp [reconstructEdges, csrOffsets]
  | e :: es, pre => by
      have ih := reconstructEdges_eq es (pre ++ e)
      have hlen : (pre ++ e).length = pre.length + e.length := List.length_append pre e
      have hhead : (((pre ++ (e :: es).flatten).drop pre.length).take
          ((pre.length + e.length) - pre.length)) = e := by
        rw [List.flatten_cons, List.drop_left, Nat.add_sub_cancel_left]
        exact List.take_left e es.flatten
      have htail : (((pre.length + e.length) :: csrOffsets (pre.length + e.length) es).zip
            (csrOffsets (pre.length + e.length) es)).map
            (fun ab => ((pre ++ (e :: es).flatten).drop ab.1).take (ab.2 - ab.1)) = es := by
        have : pre ++ (e :: es).flatten = (pre ++ e) ++ es.flatten := by
          rw [List.flatten_cons, List.append_assoc]
        rw [this, ← hlen]
        exact ih
      unfold reconstructEdges at hhead htail ⊢
      unfold csrOffsets
      simp only [List.tail_cons, List.zip_cons_cons, List.map_cons]
      rw [htail, hhead]

/-- Folding preserves any invariant preserved by the step. -/
theorem foldl_preserves {α β : Type} (P : α → Prop) (f : α → β → α)
    (hf : ∀ a b, P a → P (f a b)) :
    ∀ (l : List β) (a : α), P a → P (l.foldl f a)
  | [], _ => fun h => h
  | b :: l, a => by
      intro h
      rw [List.foldl_cons]
      exact foldl_preserves P f hf l (f a b) (hf a b h)

/-- Count invariants of the AIG hypergraph builder: the recorded hyperedge
count is the number of stored edges, the edge-weight array is parallel to
them, and the recorded pin count is the sum of the edge sizes. -/
theorem Aig_NtkBuildHypergraph_counts (ntk : AbcNtk) :
    ((Aig_NtkBuildHypergraph ntk).nHyperedges
        = (Aig_NtkBuildHypergraph ntk).hyperedges.length) ∧
    ((Aig_NtkBuildHypergraph ntk).edgeWeights.length
        = (Aig_NtkBuildHypergraph ntk).nHyperedges) ∧
    ((Aig_NtkBuildHypergraph ntk).nPins
        = ((Aig_NtkBuildHypergraph ntk).hyperedges.map List.length).sum) := by
  refine foldl_preserves
    (fun h => h.nHyperedges = h.hyperedges.length ∧
      h.edgeWeights.length = h.nHyperedges ∧
      h.nPins = (h.hyperedges.map List.length).sum)
    Aig_HyperAddObj ?_ ntk.objs (Aig_HyperAllocFilled ntk.nObjNumMax)
    (by simp [Aig_HyperAllocFilled])
  intro h o hh
  unfold Aig_HyperAddObj
  split_ifs
  · exact hh
  · refine ⟨?_, ?_, ?_⟩
    · simp [hh.1]
    · simp [hh.2.1, hh.1]
    · simp [hh.2.2]
  · exact hh

/-- The stored hyperedges are exactly the edges contributed per object, in
`Abc_NtkForEachObj` order. -/
theorem Aig_NtkBuildHypergraph_hyperedges (ntk : AbcNtk) :
    (Aig_NtkBuildHypergraph ntk).hyperedges = ntk.objs.filterMap Aig_EdgeOf := by
  have key : ∀ (l : List AbcObj) (h : AigHyper),
      (l.foldl Aig_HyperAddObj h).hyperedges = h.hyperedges ++ l.filterMap Aig_EdgeOf := by
    intro l
    induction l with
    | nil => intro h; simp
    | cons o l ih =>
        intro h
        rw [List.foldl_cons, List.filterMap_cons, ih]
        unfold Aig_HyperAddObj Aig_EdgeOf
        split_ifs
        · simp
        · simp
        · simp
  rw [Aig_NtkBuildHypergraph, key]
  simp [Aig_HyperAllocFilled]

/-- C4 (amended).  For every hypergraph built by the AIG builder, exporting
to the flat CSR form and slicing the pin list at consecutive offsets
reproduces the stored hyperedges — each being the anchor object's id followed
by its connections, in the original construction order, exactly — and the
offset index starts at 0, has length hyperedgeCount + 1 and is monotonically
non-decreasing.  (The claim as frozen also covers the `If_ManBuildHypergraph`
/ `If_HyperExportForPartitioning` pair, which does not satisfy it; see the
counterexample.) -/
theorem c4_roundtrip_aig (ntk : AbcNtk) :
    (reconstructEdges (Aig_HyperExportForPartitioning (Aig_NtkBuildHypergraph ntk)).1
        (Aig_HyperExportForPartitioning (Aig_NtkBuildHypergraph ntk)).2.1
      = (Aig_NtkBuildHypergraph ntk).hyperedges) ∧
    ((Aig_HyperExportForPartitioning (Aig_NtkBuildHypergraph ntk)).2.1.length
      = (Aig_NtkBuildHypergraph ntk).nHyperedges + 1) ∧
    ((Aig_HyperExportForPartitioning (Aig_NtkBuildHypergraph ntk)).2.1.head? = some 0) ∧
    List.Chain' (· ≤ ·) (Aig_HyperExportForPartitioning (Aig_NtkBuildHypergraph ntk)).2.1 ∧
    (∀ e ∈ (Aig_NtkBuildHypergraph ntk).hyperedges,
      ∃ o ∈ ntk.objs, e = o.aId :: Abc_AigConnections o) := by
  have hcounts := Aig_NtkBuildHypergraph_counts ntk
  have htake : (Aig_NtkBuildHypergraph ntk).hyperedges.take
      (Aig_NtkBuildHypergraph ntk).nHyperedges
      = (Aig_NtkBuildHypergraph ntk).hyperedges := by
    rw [hcounts.1]
    exact List.take_length _
  have hexp : Aig_HyperExportForPartitioning (Aig_NtkBuildHypergraph ntk)
      = ((Aig_NtkBuildHypergraph ntk).hyperedges.flatten,
         0 :: csrOffsets 0 (Aig_NtkBuildHypergraph ntk).hyperedges,
         (Aig_NtkBuildHypergraph ntk).edgeWeights) := by
    unfold Aig_HyperExportForPartitioning
    rw [htake, Aig_HyperExportLoop_eq]
    simp
  refine ⟨?_, ?_, ?_, ?_, ?_⟩
  · rw [hexp]
    simpa using reconstructEdges_eq (Aig_NtkBuildHypergraph ntk).hyperedges []
  · rw [hexp]
    simp [csrOffsets_length, hcounts.1]
  · rw [hexp]
    rfl
  · rw [hexp]
    exact csrOffsets_chain _ 0
  · intro e he
    rw [Aig_NtkBuildHypergraph_hyperedges] at he
    obtain ⟨o, ho, hoe⟩ := List.mem_filterMap.mp he
    refine ⟨o, ho, ?_⟩
    unfold Aig_EdgeOf at hoe
    split_ifs at hoe
    · exact (Option.some_inj.mp hoe).symm

/-! ## IF network model and hypergraph builder (ifHyper.c)

`If_ObjFanin0(pOther) == pObj` is a pointer comparison; object ids are unique
within one IF manager, so it is modelled as id equality on fanin snapshots. -/

/-- Snapshot of a fanin reference of an IF object. -/
structure IfFanRef where
  irId : Nat
  irIsConst1 : Bool
deriving DecidableEq

/-- An object of the IF network. -/
structure IfNetObj where
  ioId : Nat
  ioIsConst1 : Bool
  ioIsCi : Bool
  ioIsCo : Bool
  ioIsAnd : Bool
  ioIsLatch : Bool
  ioFanin0 : Option IfFanRef
  ioFanin1 : Option IfFanRef
deriving DecidableEq

/-- An IF network: objects in `If_ManForEachObj` order and `If_ManObjNum`. -/
structure IfNet where
  iobjs : List IfNetObj
  nObjNum : Nat
deriving DecidableEq

/-- Connection collection of the build loop (ifHyper.c lines 123-150): for a
non-CO object, scan all objects for AND nodes having it as a fanin and COs it
drives; for a non-latch CO, its non-constant fanin. -/
def If_ObjConnections (allObjs : List IfNetObj) (o : IfNetObj) : List Nat :=
  if ¬ o.ioIsCo then
    allObjs.foldl (fun acc other =>
      if other.ioIsAnd then
        if (other.ioFanin0.any (fun r => r.irId == o.ioId)) ||
            (other.ioFanin1.any (fun r => r.irId == o.ioId)) then acc ++ [other.ioId]
        else acc
      else if other.ioIsCo then
        if other.ioFanin0.any (fun r => r.irId == o.ioId) then acc ++ [other.ioId]
        else acc
      else acc) []
  else if o.ioIsCo ∧ ¬ o.ioIsLatch then
    match o.ioFanin0 with
    | some f => if ¬ f.irIsConst1 then [f.irId] else []
    | none => []
  else []

/-- The IF hypergraph (ifHyper.h).  `If_ManBuildHypergraph` stores each edge
with `Vec_VecPush(vHyperedges, Vec_IntSize(vHyperEdge), vHyperEdge)`, i.e.
into the level indexed by the edge's SIZE, so `vHyperedges` is a size-indexed
vector of edge lists, not a flat edge sequence. -/
structure IfHyper where
  nVertices : Nat
  nHyperedges : Nat
  nPins : Nat
  vHyperedges : List (List (List Nat))
  edgeWeights : List Int
  vertexWeights : List Int
deriving DecidableEq

/-- `If_HyperAlloc` (ifHyper.c lines 43-54) followed by the default
vertex-weight fill (line 104). -/
def If_HyperAllocFilled (n : Nat) : IfHyper :=
  ⟨n, 0, 0, [], [], List.replicate n 1⟩

/-- One iteration of the build loop (ifHyper.c lines 110-174). -/
def If_HyperAddObj (allObjs : List IfNetObj) (h : IfHyper) (o : IfNetObj) : IfHyper :=
  if o.ioIsConst1 then h
  else if (If_ObjConnections allObjs o).length > 0 then
    { h with
      vHyperedges := Vec_VecPush h.vHyperedges
        (o.ioId :: If_ObjConnections allObjs o).length
        (o.ioId :: If_ObjConnections allObjs o),
      edgeWeights := h.edgeWeights ++ [1],
      nHyperedges := h.nHyperedges + 1,
      nPins := h.nPins + (o.ioId :: If_ObjConnections allObjs o).length }
  else h

/-- `If_ManBuildHypergraph` (ifHyper.c lines 93-181). -/
def If_ManBuildHypergraph (net : IfNet) : IfHyper :=
  net.iobjs.foldl (If_HyperAddObj net.iobjs) (If_HyperAllocFilled net.nObjNum)

/-- `If_HyperExportForPartitioning` (ifHyper.c lines 243-268).  The loop
`If_HyperForEachEdge` is `Vec_VecForEachLevel`: it walks the LEVELS of the
size-indexed `Vec_Vec` (one entry per size up to the maximum edge size),
casting each level — an array of pointers to the edges of that size — to a
`Vec_Int_t` of pins, so the integers actually read are pointer
representations.  A shallow embedding cannot produce those integers;
`castLevel` abstracts the reinterpretation of one level.  Regardless of
`castLevel`, the loop pushes exactly one offset entry per level. -/
def If_HyperExportForPartitioning (castLevel : List (List Nat) → List Nat)
    (p : IfHyper) : List Nat × List Nat × List Int :=
  ((p.vHyperedges.foldl (fun acc vEdge =>
      (acc.1 ++ castLevel vEdge, acc.2 ++ [(acc.1 ++ castLevel vEdge).length])) ([], [0])).1,
   (p.vHyperedges.foldl (fun acc vEdge =>
      (acc.1 ++ castLevel vEdge, acc.2 ++ [(acc.1 ++ castLevel vEdge).length])) ([], [0])).2,
   p.edgeWeights)

/-- The IF export pushes one offset entry per level, whatever the level
reinterpretation yields. -/
theorem If_HyperExport_indices_length (castLevel : List (List Nat) → List Nat) (p : IfHyper) :
    (If_HyperExportForPartitioning castLevel p).2.1.length = p.vHyperedges.length + 1 := by
  have key : ∀ (levels : List (List (List Nat))) (acc : List Nat × List Nat),
      ((levels.foldl (fun acc vEdge =>
        (acc.1 ++ castLevel vEdge, acc.2 ++ [(acc.1 ++ castLevel vEdge).length])) acc).2).length
        = acc.2.length + levels.length := by
    intro levels
    induction levels with
    | nil => intro acc; simp
    | cons lvl ls ih =>
        intro acc
        rw [List.foldl_cons, ih]
        simp
        omega
  unfold If_HyperExportForPartitioning
  rw [key]
  simp
  omega

/-- The IF network of the C4 counterexample: constant 1, two CIs, the AND of
the CIs, and a CO driven by the AND (ids 0-4). -/
def ifNetA : IfNet :=
  ⟨[⟨0, true, false, false, false, false, none, none⟩,
    ⟨1, false, true, false, false, false, none, none⟩,
    ⟨2, false, true, false, false, false, none, none⟩,
    ⟨3, false, false, false, true, false, some ⟨1, false⟩, some ⟨2, false⟩⟩,
    ⟨4, false, false, true, false, false, some ⟨3, false⟩, none⟩], 5⟩

/-- C4 (counterexample to the claim as stated).  On the network `ifNetA` the
IF builder stores its 4 hyperedges (all of size 2) bucketed into the
size-indexed `Vec_Vec`, and its paired exporter emits one slice per size
level: the offset index has 4 entries (3 levels + 1), not
hyperedgeCount + 1 = 5, so reconstructing by slicing at consecutive offsets
cannot reproduce the 4 original hyperedges.  (`List.flatten` is used for the
level reinterpretation; the offset-vector length is independent of that
choice, see `If_HyperExport_indices_length`.) -/
theorem c4_counterexample :
    (If_ManBuildHypergraph ifNetA).nHyperedges = 4 ∧
    (If_ManBuildHypergraph ifNetA).vHyperedges.length = 3 ∧
    (If_HyperExportForPartitioning List.flatten (If_ManBuildHypergraph ifNetA)).2.1.length = 4 ∧
    (If_HyperExportForPartitioning List.flatten (If_ManBuildHypergraph ifNetA)).2.1.length
      ≠ (If_ManBuildHypergraph ifNetA).nHyperedges + 1 := by
  refine ⟨by decide, by decide, by decide, by decide⟩

/-- `Vec_VecPush` adds exactly the pushed edge's length to the total stored
pin count. -/
theorem Vec_VecPush_flatten_sum :
    ∀ (levels : List (List (List Nat))) (lvl : Nat) (e : List Nat),
      (((Vec_VecPush levels lvl e).flatten).map List.length).sum
        = ((levels.flatten).map List.length).sum + e.length
  | [], 0, e => by simp [Vec_VecPush]
  | [], n+1, e => by
      simp only [Vec_VecPush, List.flatten_cons, List.flatten_nil]
      simpa using Vec_VecPush_flatten_sum [] n e
  | l :: rest, 0, e => by
      simp [Vec_VecPush]
      omega
  | l :: rest, n+1, e => by
      simp only [Vec_VecPush, List.flatten_cons, List.map_append, List.sum_append]
      rw [Vec_VecPush_flatten_sum rest n e]
      omega

/-- C5.  For every network snapshot, both hypergraph builders keep the
recorded total pin count equal to the sum of the sizes of all stored
hyperedges, and the edge-weight array parallel to the hyperedges: its length
equals the recorded hyperedge count. -/
theorem c5_hypergraph_count_invariants :
    (∀ net : IfNet,
      (If_ManBuildHypergraph net).nPins
        = (((If_ManBuildHypergraph net).vHyperedges.flatten).map List.length).sum ∧
      (If_ManBuildHypergraph net).edgeWeights.length
        = (If_ManBuildHypergraph net).nHyperedges) ∧
    (∀ ntk : AbcNtk,
      (Aig_NtkBuildHypergraph ntk).nPins
        = ((Aig_NtkBuildHypergraph ntk).hyperedges.map List.length).sum ∧
      (Aig_NtkBuildHypergraph ntk).edgeWeights.length
        = (Aig_NtkBuildHypergraph ntk).nHyperedges) := by
  constructor
  · intro net
    refine foldl_preserves
      (fun h => h.nPins = ((h.vHyperedges.flatten).map List.length).sum ∧
        h.edgeWeights.length = h.nHyperedges)
      (If_HyperAddObj net.iobjs) ?_ net.iobjs (If_HyperAllocFilled net.nObjNum)
      (by simp [If_HyperAllocFilled])
    intro h o hh
    unfold If_HyperAddObj
    split_ifs
    · exact hh
    · constructor
      · simp only
        rw [Vec_VecPush_flatten_sum, ← hh.1]
      · simp [hh.2]
    · exact hh
  · intro ntk
    have h := Aig_NtkBuildHypergraph_counts ntk
    exact ⟨h.2.2, h.2.1⟩

/-! ## Partition propagation (abcHyperTiming.c `Aig_ApplyPartitionResult`,
ifPartition.c `If_ManSetPartitionInfo`) -/

/-- The four structures `Aig_ApplyPartitionResult` builds. -/
structure AigPartInfo where
  vPartNodes : List (List Nat)
  vPartInputs : List (List Nat)
  vPartOutputs : List (List Nat)
  vPartSize : List Int
deriving DecidableEq

/-- Step 1 (lines 673-685): assign each object to its partition's node list. -/
def Aig_ApplyStep1 (vPartition : List Int) (nPartitions : Nat) (st : AigPartInfo)
    (o : AbcObj) : AigPartInfo :=
  if o.aId ≥ vPartition.length then st
  else
    if 0 ≤ vPartition.getD o.aId 0 ∧ vPartition.getD o.aId 0 < (nPartitions : Int) then
      { st with
        vPartNodes := Vec_VecPush st.vPartNodes (vPartition.getD o.aId 0).toNat o.aId,
        vPartSize := st.vPartSize.set (vPartition.getD o.aId 0).toNat
          (st.vPartSize.getD (vPartition.getD o.aId 0).toNat 0 + 1) }
    else st

/-- Step 2a (lines 689-717): a primary input with a fanout in another
partition is an output of its partition and an input of the fanout's. -/
def Aig_ApplyStep2Pi (vPartition : List Int) (nPartitions : Nat) (st : AigPartInfo)
    (o : AbcObj) : AigPartInfo :=
  if o.aId ≥ vPartition.length then st
  else if vPartition.getD o.aId 0 < 0 ∨ vPartition.getD o.aId 0 ≥ (nPartitions : Int) then st
  else
    o.aFanouts.foldl (fun st f =>
      if f.aId ≥ vPartition.length then st
      else
        if vPartition.getD f.aId 0 ≠ vPartition.getD o.aId 0 ∧
            0 ≤ vPartition.getD f.aId 0 ∧ vPartition.getD f.aId 0 < (nPartitions : Int) then
          { st with
            vPartOutputs := Vec_VecPushUnique st.vPartOutputs
              (vPartition.getD o.aId 0).toNat o.aId,
            vPartInputs := Vec_VecPushUnique st.vPartInputs
              (vPartition.getD f.aId 0).toNat o.aId }
        else st) st

/-- Step 2b (lines 720-748): an internal node's fanin from another partition
is an input of the node's partition and an output of the fanin's. -/
def Aig_ApplyStep2Node (vPartition : List Int) (nPartitions : Nat) (st : AigPartInfo)
    (o : AbcObj) : AigPartInfo :=
  if o.aId ≥ vPartition.length then st
  else if vPartition.getD o.aId 0 < 0 ∨ vPartition.getD o.aId 0 ≥ (nPartitions : Int) then st
  else
    o.aFanins.foldl (fun st f =>
      if f.aId ≥ vPartition.length then st
      else
        if vPartition.getD f.aId 0 ≠ vPartition.getD o.aId 0 ∧
            0 ≤ vPartition.getD f.aId 0 ∧ vPartition.getD f.aId 0 < (nPartitions : Int) then
          { st with
            vPartInputs := Vec_VecPushUnique st.vPartInputs
              (vPartition.getD o.aId 0).toNat f.aId,
            vPartOutputs := Vec_VecPushUnique st.vPartOutputs
              (vPartition.getD f.aId 0).toNat f.aId }
        else st) st

/-- Step 3 (lines 751-766): the driver of every primary output is recorded as
an output of its own partition (no cross-partition condition). -/
def Aig_ApplyStep3 (vPartition : List Int) (nPartitions : Nat) (st : AigPartInfo)
    (o : AbcObj) : AigPartInfo :=
  match o.aFanins.head? with
  | none => st
  | some f =>
    if f.aId < vPartition.length then
      if 0 ≤ vPartition.getD f.aId 0 ∧ vPartition.getD f.aId 0 < (nPartitions : Int) then
        { st with
          vPartOutputs := Vec_VecPushUnique st.vPartOutputs
            (vPartition.getD f.aId 0).toNat f.aId }
      else st
    else st

/-- `Aig_ApplyPartitionResult` (abcHyperTiming.c lines 645-814); the unused
hypergraph argument of the C signature is dropped, and the `nPartitions <= 0`
argument check is the `none` case. -/
def Aig_ApplyPartitionResult (ntk : AbcNtk) (vPartition : List Int)
    (nPartitions : Nat) : Option AigPartInfo :=
  if nPartitions = 0 then none
  else
    some ((ntk.objs.filter (fun o => o.aIsPo)).foldl (Aig_ApplyStep3 vPartition nPartitions)
      ((ntk.objs.filter (fun o => o.aIsNode)).foldl (Aig_ApplyStep2Node vPartition nPartitions)
        ((ntk.objs.filter (fun o => o.aIsPi)).foldl (Aig_ApplyStep2Pi vPartition nPartitions)
          (ntk.objs.foldl (Aig_ApplyStep1 vPartition nPartitions)
            ⟨Vec_VecStart Nat nPartitions, Vec_VecStart Nat nPartitions,
             Vec_VecStart Nat nPartitions, List.replicate nPartitions 0⟩))))

/-- The propagation state built by `If_ManSetPartitionInfo`. -/
structure IfPartData where
  dVPartition : List Int
  dVPartInputs : List (List Nat)
  dVPartOutputs : List (List Nat)
deriving DecidableEq

/-- Per-node body of `If_ManSetPartitionInfo` (ifPartition.c lines 90-129):
skip nodes without an IF copy or out of the vector's range, transfer the
partition id to the copy's slot, and record cross-partition fanins in the
boundary sets (note: unlike the AIG propagator, no `< nPartitions` bound is
checked here, and `Vec_VecPushUniqueInt` grows the outer vector on demand). -/
def If_SetPartObj (vPartition : List Int) (st : IfPartData) (o : AbcObj) : IfPartData :=
  match o.aCopy with
  | none => st
  | some copyId =>
    if o.aId ≥ vPartition.length then st
    else
      o.aFanins.foldl (fun st f =>
        if f.aId ≥ vPartition.length then st
        else
          if vPartition.getD f.aId 0 ≠ vPartition.getD o.aId 0 ∧
              0 ≤ vPartition.getD f.aId 0 ∧ 0 ≤ vPartition.getD o.aId 0 then
            { st with
              dVPartOutputs := Vec_VecPushUnique st.dVPartOutputs
                (vPartition.getD f.aId 0).toNat f.afCopy,
              dVPartInputs := Vec_VecPushUnique st.dVPartInputs
                (vPartition.getD o.aId 0).toNat f.afCopy }
          else st)
        { st with dVPartition := st.dVPartition.set copyId (vPartition.getD o.aId 0) }

/-- `If_ManSetPartitionInfo` (ifPartition.c lines 65-140): iterate the AIG's
internal nodes (`Abc_NtkForEachNode`) over a fresh all-`-1` partition vector
of `If_ManObjNum` entries and `Vec_VecStart nPartitions` boundary sets. -/
def If_ManSetPartitionInfo (nIfObjs : Nat) (aig : AbcNtk) (vPartition : List Int)
    (nPartitions : Nat) : IfPartData :=
  (aig.objs.filter (fun o => o.aIsNode)).foldl (If_SetPartObj vPartition)
    ⟨List.replicate nIfObjs (-1), Vec_VecStart Nat nPartitions, Vec_VecStart Nat nPartitions⟩

/-! ## KaHyPar oracle adapter (ifKahypar.c, the `ABC_USE_KAHYPAR` version) -/

/-- `Kahypar_Par_t`. -/
structure KahyparPar where
  nPartitions : Nat
  dImbalance : Rat
  fVerbose : Bool
  fUseNodeWeights : Bool
  fUseEdgeWeights : Bool
deriving DecidableEq

/-- `Kahypar_Result_t`. -/
structure KahyparResult where
  nVertices : Nat
  nPartitions : Nat
  vPartition : List Int
  nCutEdges : Int
  fSuccess : Bool
deriving DecidableEq

/-- `Kahypar_ParSetDefault` (lines 88-97). -/
def Kahypar_ParSetDefault : KahyparPar := ⟨2, 9 / 10, false, false, false⟩

/-- `Kahypar_ResultAlloc` (lines 110-118): partition vector filled with `-1`,
`nCutEdges` zeroed by the calloc, success cleared. -/
def Kahypar_ResultAlloc (nVertices : Nat) : KahyparResult :=
  ⟨nVertices, 0, List.replicate nVertices (-1), 0, false⟩

/-- The external KaHyPar library and the file system, as an opaque
environment: context creation, configuration-file setup and hypergraph
creation may fail, and the oracle maps the partition count, imbalance and the
exported (offsets, pins) arrays to a partition array and a cut objective. -/
structure KahyparEnv where
  contextOk : Bool
  configOk : Bool
  createOk : Bool
  oracle : Nat → Rat → List Nat × List Nat → List Int × Int

/-- `Kahypar_PartitionHypergraph` (part ifKahypar.c lines 188-396): result
allocation, the `nPartitions == 1` early return (before any export, context
or oracle work), the export-consistency check on the offset-vector length,
the fallible context/config/hypergraph setup, the oracle call, and the copy
of the partition array (entries the oracle left uncovered stay `-1`).  The
second component records whether `kahypar_partition_hypergraph` was invoked. -/
def Kahypar_PartitionHypergraph (env : KahyparEnv) (pHyper : AigHyper)
    (pPars : KahyparPar) : KahyparResult × Bool :=
  if pPars.nPartitions = 1 then
    ({ Kahypar_ResultAlloc pHyper.nVertices with
        nPartitions := pPars.nPartitions,
        vPartition := List.replicate pHyper.nVertices 0, fSuccess := true }, false)
  else
    if (Aig_HyperExportForPartitioning pHyper).2.1.length ≠ pHyper.nHyperedges + 1 then
      ({ Kahypar_ResultAlloc pHyper.nVertices with nPartitions := pPars.nPartitions }, false)
    else if ¬ env.contextOk then
      ({ Kahypar_ResultAlloc pHyper.nVertices with nPartitions := pPars.nPartitions }, false)
    else if ¬ env.configOk then
      ({ Kahypar_ResultAlloc pHyper.nVertices with nPartitions := pPars.nPartitions }, false)
    else if ¬ env.createOk then
      ({ Kahypar_ResultAlloc pHyper.nVertices with nPartitions := pPars.nPartitions }, false)
    else
      ({ Kahypar_ResultAlloc pHyper.nVertices with
          nPartitions := pPars.nPartitions,
          vPartition := (List.range pHyper.nVertices).map (fun i =>
            (env.oracle pPars.nPartitions pPars.dImbalance
              ((Aig_HyperExportForPartitioning pHyper).2.1,
               (Aig_HyperExportForPartitioning pHyper).1)).1.getD i (-1)),
          nCutEdges := (env.oracle pPars.nPartitions pPars.dImbalance
            ((Aig_HyperExportForPartitioning pHyper).2.1,
             (Aig_HyperExportForPartitioning pHyper).1)).2,
          fSuccess := true }, true)

/-! ## Concrete instances for the partition-propagation claims -/

/-- Parameters requesting a single partition. -/
def parsC6 : KahyparPar := { Kahypar_ParSetDefault with nPartitions := 1 }

/-- A hostile environment: every external setup step fails and the oracle
returns garbage.  With one partition none of it is ever consulted. -/
def envC6 : KahyparEnv := ⟨false, false, false, fun _ _ _ => ([], 37)⟩

/-- A healthy environment with a different oracle. -/
def envC6b : KahyparEnv :=
  ⟨true, true, true, fun _ _ e => (List.replicate e.1.length 1, 5)⟩

/-- A three-vertex hypergraph container. -/
def hyperC6 : AigHyper := Aig_HyperAllocFilled 3

/-- A network with one internal node (id 1) driving one primary output
(id 2). -/
def ntkC6 : AbcNtk :=
  ⟨[⟨1, false, false, false, false, true, 0, [], [], none⟩,
    ⟨2, false, false, true, false, false, 0, [], [⟨1, true, false, false, 0, 0⟩], none⟩], 3⟩

/-- The partition info the AIG propagator derives from `ntkC6` with the
two-partition assignment `[0, 1, 0]`. -/
def infoC7 : AigPartInfo :=
  (Aig_ApplyPartitionResult ntkC6 [0, 1, 0] 2).getD ⟨[], [], [], []⟩

/-! ## Helper lemmas for the partition-propagation claims -/

/-- `List.getD` on an all-zero vector is zero, in or out of range. -/
theorem getD_replicate_zero (n i : Nat) : (List.replicate n (0 : Int)).getD i 0 = 0 := by
  rcases Nat.lt_or_ge i n with h | h
  · rw [List.getD_eq_getElem?_getD, List.getElem?_replicate, if_pos h]
    rfl
  · rw [List.getD_eq_getElem?_getD,
      List.getElem?_eq_none (by simpa using h)]
    rfl

/-- A fold whose step preserves `P` for every member of the list preserves
`P`. -/
theorem foldl_preserves_mem {α β : Type} (P : α → Prop) (f : α → β → α) :
    ∀ (l : List β), (∀ a b, b ∈ l → P a → P (f a b)) → ∀ a, P a → P (l.foldl f a)
  | [], _, _ => fun h => h
  | b :: l, hf, a => by
      intro h
      rw [List.foldl_cons]
      exact foldl_preserves_mem P f l
        (fun a c hc => hf a c (List.mem_cons_of_mem _ hc)) (f a b)
        (hf a b (List.mem_cons_self _ _) h)

/-- Every element of a level of `Vec_VecPushUnique levels lvl v` is `v` or an
element of an original level. -/
theorem Vec_VecPushUnique_mem {α : Type} [DecidableEq α] :
    ∀ (levels : List (List α)) (lvl : Nat) (v : α) (l : List α),
      l ∈ Vec_VecPushUnique levels lvl v → ∀ x ∈ l, x = v ∨ ∃ q ∈ levels, x ∈ q
  | [], 0, v, l => by
      intro hl x hx
      simp only [Vec_VecPushUnique, List.mem_singleton] at hl
      subst hl
      simp only [List.mem_singleton] at hx
      exact Or.inl hx
  | [], n+1, v, l => by
      intro hl x hx
      simp only [Vec_VecPushUnique, List.mem_cons] at hl
      rcases hl with rfl | hl
      · simp at hx
      · rcases Vec_VecPushUnique_mem [] n v l hl x hx with h | ⟨q, hq, _⟩
        · exact Or.inl h
        · simp at hq
  | l0 :: rest, 0, v, l => by
      intro hl x hx
      simp only [Vec_VecPushUnique, List.mem_cons] at hl
      rcases hl with rfl | hl
      · by_cases hc : l0.contains v
        · rw [if_pos hc] at hx
          exact Or.inr ⟨l0, by simp, hx⟩
        · rw [if_neg hc] at hx
          rcases List.mem_append.mp hx with h | h
          · exact Or.inr ⟨l0, by simp, h⟩
          · exact Or.inl (by simpa using h)
      · exact Or.inr ⟨l, List.mem_cons_of_mem _ hl, hx⟩
  | l0 :: rest, n+1, v, l => by
      intro hl x hx
      simp only [Vec_VecPushUnique, List.mem_cons] at hl
      rcases hl with rfl | hl
      · exact Or.inr ⟨l, by simp, hx⟩
      · rcases Vec_VecPushUnique_mem rest n v l hl x hx with h | ⟨q, hq, hxq⟩
        · exact Or.inl h
        · exact Or.inr ⟨q, List.mem_cons_of_mem _ hq, hxq⟩

/-- Step 1 never touches the boundary sets. -/
theorem Aig_ApplyStep1_boundary (v : List Int) (p : Nat) (st : AigPartInfo) (o : AbcObj) :
    (Aig_ApplyStep1 v p st o).vPartInputs = st.vPartInputs ∧
    (Aig_ApplyStep1 v p st o).vPartOutputs = st.vPartOutputs := by
  unfold Aig_ApplyStep1
  split_ifs <;> exact ⟨rfl, rfl⟩

/-- Step 3 never touches the input sets. -/
theorem Aig_ApplyStep3_inputs (v : List Int) (p : Nat) (st : AigPartInfo) (o : AbcObj) :
    (Aig_ApplyStep3 v p st o).vPartInputs = st.vPartInputs := by
  unfold Aig_ApplyStep3
  cases o.aFanins.head? with
  | none => rfl
  | some f =>
      dsimp only
      split_ifs <;> rfl

/-- Under the all-zero partition vector no fanout of a primary input crosses
a partition boundary, so Step 2a is the identity. -/
theorem Aig_ApplyStep2Pi_replicate (n p : Nat) (st : AigPartInfo) (o : AbcObj) :
    Aig_ApplyStep2Pi (List.replicate n 0) p st o = st := by
  unfold Aig_ApplyStep2Pi
  split_ifs with h1 h2
  · rfl
  · rfl
  · refine foldl_preserves (fun s => s = st) _ ?_ _ _ rfl
    intro a f ha
    subst ha
    by_cases hf1 : f.aId ≥ (List.replicate n (0 : Int)).length
    · rw [if_pos hf1]
    · rw [if_neg hf1, if_neg (by simp [getD_replicate_zero])]

/-- Under the all-zero partition vector no fanin of an internal node crosses
a partition boundary, so Step 2b is the identity. -/
theorem Aig_ApplyStep2Node_replicate (n p : Nat) (st : AigPartInfo) (o : AbcObj) :
    Aig_ApplyStep2Node (List.replicate n 0) p st o = st := by
  unfold Aig_ApplyStep2Node
  split_ifs with h1 h2
  · rfl
  · rfl
  · refine foldl_preserves (fun s => s = st) _ ?_ _ _ rfl
    intro a f ha
    subst ha
    by_cases hf1 : f.aId ≥ (List.replicate n (0 : Int)).length
    · rw [if_pos hf1]
    · rw [if_neg hf1, if_neg (by simp [getD_replicate_zero])]

/-- Under the all-zero partition vector the per-node body of
`If_ManSetPartitionInfo` leaves both boundary sets unchanged. -/
theorem If_SetPartObj_replicate (n : Nat) (st : IfPartData) (o : AbcObj) :
    (If_SetPartObj (List.replicate n 0) st o).dVPartInputs = st.dVPartInputs ∧
    (If_SetPartObj (List.replicate n 0) st o).dVPartOutputs = st.dVPartOutputs := by
  unfold If_SetPartObj
  cases o.aCopy with
  | none => exact ⟨rfl, rfl⟩
  | some copyId =>
      dsimp only
      split_ifs with h1
      · exact ⟨rfl, rfl⟩
      · refine foldl_preserves (fun s : IfPartData =>
            s.dVPartInputs = st.dVPartInputs ∧ s.dVPartOutputs = st.dVPartOutputs)
            _ ?_ _ _ ⟨rfl, rfl⟩
        intro s f hs
        split_ifs with hf1 hf2
        · exact hs
        · exact absurd (by rw [getD_replicate_zero, getD_replicate_zero]) hf2.1
        · exact hs

/-- Step 1 preserves duplicate-freeness of every boundary level. -/
theorem Aig_ApplyStep1_nodup (v : List Int) (p : Nat) (st : AigPartInfo) (o : AbcObj)
    (h : (∀ l ∈ st.vPartInputs, l.Nodup) ∧ ∀ l ∈ st.vPartOutputs, l.Nodup) :
    (∀ l ∈ (Aig_ApplyStep1 v p st o).vPartInputs, l.Nodup) ∧
    ∀ l ∈ (Aig_ApplyStep1 v p st o).vPartOutputs, l.Nodup := by
  rw [(Aig_ApplyStep1_boundary v p st o).1, (Aig_ApplyStep1_boundary v p st o).2]
  exact h

/-- Step 2a preserves duplicate-freeness of every boundary level. -/
theorem Aig_ApplyStep2Pi_nodup (v : List Int) (p : Nat) (st : AigPartInfo) (o : AbcObj)
    (h : (∀ l ∈ st.vPartInputs, l.Nodup) ∧ ∀ l ∈ st.vPartOutputs, l.Nodup) :
    (∀ l ∈ (Aig_ApplyStep2Pi v p st o).vPartInputs, l.Nodup) ∧
    ∀ l ∈ (Aig_ApplyStep2Pi v p st o).vPartOutputs, l.Nodup := by
  unfold Aig_ApplyStep2Pi
  split_ifs with h1 h2
  · exact h
  · exact h
  · refine foldl_preserves (fun s : AigPartInfo =>
        (∀ l ∈ s.vPartInputs, l.Nodup) ∧ ∀ l ∈ s.vPartOutputs, l.Nodup) _ ?_ _ _ h
    intro s f hs
    split_ifs with hf1 hf2
    · exact hs
    · exact ⟨Vec_VecPushUnique_nodup _ _ _ hs.1, Vec_VecPushUnique_nodup _ _ _ hs.2⟩
    · exact hs

/-- Step 2b preserves duplicate-freeness of every boundary level. -/
theorem Aig_ApplyStep2Node_nodup (v : List Int) (p : Nat) (st : AigPartInfo) (o : AbcObj)
    (h : (∀ l ∈ st.vPartInputs, l.Nodup) ∧ ∀ l ∈ st.vPartOutputs, l.Nodup) :
    (∀ l ∈ (Aig_ApplyStep2Node v p st o).vPartInputs, l.Nodup) ∧
    ∀ l ∈ (Aig_ApplyStep2Node v p st o).vPartOutputs, l.Nodup := by
  unfold Aig_ApplyStep2Node
  split_ifs with h1 h2
  · exact h
  · exact h
  · refine foldl_preserves (fun s : AigPartInfo =>
        (∀ l ∈ s.vPartInputs, l.Nodup) ∧ ∀ l ∈ s.vPartOutputs, l.Nodup) _ ?_ _ _ h
    intro s f hs
    split_ifs with hf1 hf2
    · exact hs
    · exact ⟨Vec_VecPushUnique_nodup _ _ _ hs.1, Vec_VecPushUnique_nodup _ _ _ hs.2⟩
    · exact hs

/-- Step 3 preserves duplicate-freeness of every boundary level. -/
theorem Aig_ApplyStep3_nodup (v : List Int) (p : Nat) (st : AigPartInfo) (o : AbcObj)
    (h : (∀ l ∈ st.vPartInputs, l.Nodup) ∧ ∀ l ∈ st.vPartOutputs, l.Nodup) :
    (∀ l ∈ (Aig_ApplyStep3 v p st o).vPartInputs, l.Nodup) ∧
    ∀ l ∈ (Aig_ApplyStep3 v p st o).vPartOutputs, l.Nodup := by
  unfold Aig_ApplyStep3
  cases o.aFanins.head? with
  | none => exact h
  | some f =>
      dsimp only
      split_ifs with h1 h2
      · exact ⟨h.1, Vec_VecPushUnique_nodup _ _ _ h.2⟩
      · exact h
      · exact h

/-- The per-node body of `If_ManSetPartitionInfo` preserves duplicate-freeness
of every boundary level. -/
theorem If_SetPartObj_nodup (v : List Int) (st : IfPartData) (o : AbcObj)
    (h : (∀ l ∈ st.dVPartInputs, l.Nodup) ∧ ∀ l ∈ st.dVPartOutputs, l.Nodup) :
    (∀ l ∈ (If_SetPartObj v st o).dVPartInputs, l.Nodup) ∧
    ∀ l ∈ (If_SetPartObj v st o).dVPartOutputs, l.Nodup := by
  unfold If_SetPartObj
  cases o.aCopy with
  | none => exact h
  | some copyId =>
      dsimp only
      split_ifs with h1
      · exact h
      · refine foldl_preserves (fun s : IfPartData =>
            (∀ l ∈ s.dVPartInputs, l.Nodup) ∧ ∀ l ∈ s.dVPartOutputs, l.Nodup) _ ?_ _ _ h
        intro s f hs
        split_ifs with hf1 hf2
        · exact hs
        · exact ⟨Vec_VecPushUnique_nodup _ _ _ hs.1, Vec_VecPushUnique_nodup _ _ _ hs.2⟩
        · exact hs

/-- C6 counterexample: with `nPartitions = 1` the adapter does assign every
vertex to partition 0 without invoking the oracle, but the boundary sets the
AIG propagator derives from that assignment are NOT all empty — Step 3 of
`Aig_ApplyPartitionResult` records the driver of every primary output in its
partition's Output set unconditionally, so on `ntkC6` partition 0's Output
set is `[1]`. -/
theorem c6_counterexample :
    (Kahypar_PartitionHypergraph envC6 hyperC6 parsC6).2 = false ∧
    (Kahypar_PartitionHypergraph envC6 hyperC6 parsC6).1.vPartition
      = List.replicate 3 0 ∧
    (Aig_ApplyPartitionResult ntkC6
        (Kahypar_PartitionHypergraph envC6 hyperC6 parsC6).1.vPartition 1).map
      AigPartInfo.vPartOutputs = some [[1]] ∧
    ¬ ∀ l ∈ [([1] : List Nat)], l = [] := by decide

/-- C6 (corrected): with `nPartitions = 1` the adapter never invokes the
external oracle, is independent of the external environment, and returns
every vertex assigned to partition 0 with success reported and a zero cut
objective.  The per-partition boundary sets derived from that assignment are
NOT all empty: the AIG propagator's Input sets are empty and its Output sets
contain only drivers of primary outputs (which Step 3 records without any
cross-partition condition), while the IF-side propagator's boundary sets are
all empty. -/
theorem c6_single_partition (env env' : KahyparEnv) (hyper : AigHyper)
    (pars : KahyparPar) (h1 : pars.nPartitions = 1) :
    (Kahypar_PartitionHypergraph env hyper pars).2 = false ∧
    Kahypar_PartitionHypergraph env hyper pars
      = Kahypar_PartitionHypergraph env' hyper pars ∧
    (Kahypar_PartitionHypergraph env hyper pars).1.vPartition
      = List.replicate hyper.nVertices 0 ∧
    (Kahypar_PartitionHypergraph env hyper pars).1.fSuccess = true ∧
    (Kahypar_PartitionHypergraph env hyper pars).1.nCutEdges = 0 ∧
    (∀ (ntk : AbcNtk) (info : AigPartInfo) (n : Nat),
      Aig_ApplyPartitionResult ntk (List.replicate n 0) 1 = some info →
        (∀ l ∈ info.vPartInputs, l = []) ∧
        ∀ l ∈ info.vPartOutputs, ∀ x ∈ l,
          ∃ o ∈ ntk.objs, o.aIsPo = true ∧
            ∃ f, o.aFanins.head? = some f ∧ f.aId = x) ∧
    ∀ (nIfObjs n p : Nat) (aig : AbcNtk),
      (∀ l ∈ (If_ManSetPartitionInfo nIfObjs aig
          (List.replicate n 0) p).dVPartInputs, l = []) ∧
      ∀ l ∈ (If_ManSetPartitionInfo nIfObjs aig
          (List.replicate n 0) p).dVPartOutputs, l = [] := by
  refine ⟨?_, ?_, ?_, ?_, ?_, ?_, ?_⟩
  · unfold Kahypar_PartitionHypergraph
    rw [if_pos h1]
  · unfold Kahypar_PartitionHypergraph
    rw [if_pos h1, if_pos h1]
  · unfold Kahypar_PartitionHypergraph
    rw [if_pos h1]
  · unfold Kahypar_PartitionHypergraph
    rw [if_pos h1]
  · unfold Kahypar_PartitionHypergraph
    rw [if_pos h1]
    rfl
  · intro ntk info n hinfo
    unfold Aig_ApplyPartitionResult at hinfo
    rw [if_neg one_ne_zero] at hinfo
    injection hinfo with he
    subst he
    have h2pi : ∀ (l : List AbcObj) (s : AigPartInfo),
        l.foldl (Aig_ApplyStep2Pi (List.replicate n 0) 1) s = s := by
      intro l
      induction l with
      | nil => intro s; rfl
      | cons o t ih =>
          intro s
          rw [List.foldl_cons, Aig_ApplyStep2Pi_replicate]
          exact ih s
    have h2node : ∀ (l : List AbcObj) (s : AigPartInfo),
        l.foldl (Aig_ApplyStep2Node (List.replicate n 0) 1) s = s := by
      intro l
      induction l with
      | nil => intro s; rfl
      | cons o t ih =>
          intro s
          rw [List.foldl_cons, Aig_ApplyStep2Node_replicate]
          exact ih s
    rw [h2node, h2pi]
    constructor
    · refine foldl_preserves (fun s : AigPartInfo => ∀ l ∈ s.vPartInputs, l = [])
          _ ?_ _ _ ?_
      · intro a o ha
        rw [Aig_ApplyStep3_inputs]
        exact ha
      · refine foldl_preserves (fun s : AigPartInfo => ∀ l ∈ s.vPartInputs, l = [])
            _ ?_ _ _ ?_
        · intro a o ha
          rw [(Aig_ApplyStep1_boundary _ _ a o).1]
          exact ha
        · intro l hl
          exact List.eq_of_mem_replicate
            (show l ∈ List.replicate 1 ([] : List Nat) from hl)
    · refine foldl_preserves_mem (fun s : AigPartInfo =>
          ∀ l ∈ s.vPartOutputs, ∀ x ∈ l,
            ∃ o ∈ ntk.objs, o.aIsPo = true ∧
              ∃ f, o.aFanins.head? = some f ∧ f.aId = x) _ _ ?_ _ ?_
      · intro a o ho ha
        unfold Aig_ApplyStep3
        cases hh : o.aFanins.head? with
        | none => exact ha
        | some f =>
            dsimp only
            split_ifs with hf1 hf2
            · intro l hl x hx
              rcases Vec_VecPushUnique_mem _ _ _ _ hl x hx with rfl | ⟨q, hq, hxq⟩
              · have hmem := List.mem_filter.mp ho
                exact ⟨o, hmem.1, hmem.2, f, hh, rfl⟩
              · exact ha q hq x hxq
            · exact ha
            · exact ha
      · refine foldl_preserves (fun s : AigPartInfo =>
            ∀ l ∈ s.vPartOutputs, ∀ x ∈ l,
              ∃ o ∈ ntk.objs, o.aIsPo = true ∧
                ∃ f, o.aFanins.head? = some f ∧ f.aId = x) _ ?_ _ _ ?_
        · intro a o ha
          rw [(Aig_ApplyStep1_boundary _ _ a o).2]
          exact ha
        · intro l hl
          rw [List.eq_of_mem_replicate
            (show l ∈ List.replicate 1 ([] : List Nat) from hl)]
          intro x hx
          simp at hx
  · intro nIfObjs n p aig
    have hstep : ∀ (s : IfPartData) (o : AbcObj),
        ((∀ l ∈ s.dVPartInputs, l = []) ∧ ∀ l ∈ s.dVPartOutputs, l = []) →
        (∀ l ∈ (If_SetPartObj (List.replicate n 0) s o).dVPartInputs, l = []) ∧
        ∀ l ∈ (If_SetPartObj (List.replicate n 0) s o).dVPartOutputs, l = [] := by
      intro s o hs
      rw [(If_SetPartObj_replicate n s o).1, (If_SetPartObj_replicate n s o).2]
      exact hs
    have h0 : ∀ l ∈ Vec_VecStart Nat p, l = ([] : List Nat) := fun l hl =>
      List.eq_of_mem_replicate (show l ∈ List.replicate p ([] : List Nat) from hl)
    exact foldl_preserves _ _ hstep _ _ ⟨h0, h0⟩

/-- C6 witness: the single-partition theorem instantiated at the concrete
hostile environment, three-vertex hypergraph and `nPartitions = 1`
parameters. -/
theorem c6_single_partition_witness :
    parsC6.nPartitions = 1 ∧
    (Kahypar_PartitionHypergraph envC6 hyperC6 parsC6).2 = false ∧
    Kahypar_PartitionHypergraph envC6 hyperC6 parsC6
      = Kahypar_PartitionHypergraph envC6b hyperC6 parsC6 ∧
    (Kahypar_PartitionHypergraph envC6 hyperC6 parsC6).1.vPartition
      = List.replicate hyperC6.nVertices 0 ∧
    (Kahypar_PartitionHypergraph envC6 hyperC6 parsC6).1.fSuccess = true ∧
    (Kahypar_PartitionHypergraph envC6 hyperC6 parsC6).1.nCutEdges = 0 := by
  have h := c6_single_partition envC6 envC6b hyperC6 parsC6 (by decide)
  exact ⟨by decide, h.1, h.2.1, h.2.2.1, h.2.2.2.1, h.2.2.2.2.1⟩

/-- C7: both partition-info propagators keep every boundary Input and Output
level free of duplicates, for every network, partition vector and partition
count — `Vec_VecPushUnique` refuses to append an id already present in the
level, no matter how many cross-partition edges reference the same node. -/
theorem c7_boundary_nodup (nIfObjs : Nat) (aig : AbcNtk) (vPartition : List Int)
    (nPartitions : Nat) (ntk : AbcNtk) (v2 : List Int) (p2 : Nat)
    (info : AigPartInfo) (hinfo : Aig_ApplyPartitionResult ntk v2 p2 = some info) :
    (∀ l ∈ (If_ManSetPartitionInfo nIfObjs aig vPartition
        nPartitions).dVPartInputs, l.Nodup) ∧
    (∀ l ∈ (If_ManSetPartitionInfo nIfObjs aig vPartition
        nPartitions).dVPartOutputs, l.Nodup) ∧
    (∀ l ∈ info.vPartInputs, l.Nodup) ∧
    ∀ l ∈ info.vPartOutputs, l.Nodup := by
  have h0 : ∀ (m : Nat) (l : List Nat), l ∈ Vec_VecStart Nat m → l.Nodup := by
    intro m l hl
    rw [List.eq_of_mem_replicate (show l ∈ List.replicate m ([] : List Nat) from hl)]
    exact List.nodup_nil
  have hIf := foldl_preserves (fun s : IfPartData =>
      (∀ l ∈ s.dVPartInputs, l.Nodup) ∧ ∀ l ∈ s.dVPartOutputs, l.Nodup)
    (If_SetPartObj vPartition) (If_SetPartObj_nodup vPartition)
    (aig.objs.filter fun o => o.aIsNode)
    ⟨List.replicate nIfObjs (-1), Vec_VecStart Nat nPartitions,
      Vec_VecStart Nat nPartitions⟩
    ⟨h0 nPartitions, h0 nPartitions⟩
  by_cases hp : p2 = 0
  · unfold Aig_ApplyPartitionResult at hinfo
    rw [if_pos hp] at hinfo
    exact Option.noConfusion hinfo
  · unfold Aig_ApplyPartitionResult at hinfo
    rw [if_neg hp] at hinfo
    injection hinfo with he
    subst he
    have hAig := foldl_preserves (fun s : AigPartInfo =>
        (∀ l ∈ s.vPartInputs, l.Nodup) ∧ ∀ l ∈ s.vPartOutputs, l.Nodup)
      (Aig_ApplyStep3 v2 p2) (Aig_ApplyStep3_nodup v2 p2)
      (ntk.objs.filter fun o => o.aIsPo) _
      (foldl_preserves _ (Aig_ApplyStep2Node v2 p2) (Aig_ApplyStep2Node_nodup v2 p2)
        (ntk.objs.filter fun o => o.aIsNode) _
        (foldl_preserves _ (Aig_ApplyStep2Pi v2 p2) (Aig_ApplyStep2Pi_nodup v2 p2)
          (ntk.objs.filter fun o => o.aIsPi) _
          (foldl_preserves _ (Aig_ApplyStep1 v2 p2) (Aig_ApplyStep1_nodup v2 p2)
            ntk.objs
            ⟨Vec_VecStart Nat p2, Vec_VecStart Nat p2, Vec_VecStart Nat p2,
              List.replicate p2 0⟩
            ⟨h0 p2, h0 p2⟩)))
    exact ⟨hIf.1, hIf.2, hAig.1, hAig.2⟩

/-- C7 witness: duplicate-freeness on the concrete network `ntkC6` with the
two-partition assignment `[0, 1, 0]`. -/
theorem c7_boundary_nodup_witness :
    Aig_ApplyPartitionResult ntkC6 [0, 1, 0] 2 = some infoC7 ∧
    (∀ l ∈ (If_ManSetPartitionInfo 3 ntkC6 [0, 1, 0] 2).dVPartInputs, l.Nodup) ∧
    ∀ l ∈ infoC7.vPartOutputs, l.Nodup := by
  have h := c7_boundary_nodup 3 ntkC6 [0, 1, 0] 2 ntkC6 [0, 1, 0] 2 infoC7 (by decide)
  exact ⟨by decide, h.1, h.2.2.2⟩
